import Mathlib

/-!
Verification development for the recurrence-expansion and schedule-conflict
engine of the AIVA productivity application.

The definitions below are a shallow embedding of the Python source:
* `database_manager.py` — `add_task`, `add_schedule_item`,
  `get_schedule_by_date_range`, `get_schedule_by_month`,
  `get_today_schedule`, `get_today_schedule_full`;
* `event_manager.py` — the conflict loops of `create_event_from_popup`
  and `update_event_from_popup`;
* `main.py` — the conflict check and alternative-time suggestions of
  `add_event_voice`.

Python `datetime.date` values are embedded as year/month/day triples of
naturals, `datetime` values as a date together with an
hour/minute/second triple, and the ISO strings stored in the SQLite
`tasks` table as Lean strings, with an executable model of
`datetime.fromisoformat` and `datetime.isoformat`.
-/

namespace AIVA

/-- A calendar date, as Python `datetime.date`: year, month, day. -/
structure Date where
  year : Nat
  month : Nat
  day : Nat
deriving DecidableEq

/-- A time of day, as the time component of a Python `datetime`. -/
structure Time where
  hour : Nat
  minute : Nat
  second : Nat
deriving DecidableEq

/-- A date plus a time of day, as Python `datetime.datetime`. -/
structure DateTime where
  date : Date
  time : Time
deriving DecidableEq

/-- Python date comparison: lexicographic on (year, month, day). -/
def Date.le (a b : Date) : Prop :=
  a.year < b.year ∨ (a.year = b.year ∧
    (a.month < b.month ∨ (a.month = b.month ∧ a.day ≤ b.day)))

/-- Strict Python date comparison. -/
def Date.lt (a b : Date) : Prop :=
  a.year < b.year ∨ (a.year = b.year ∧
    (a.month < b.month ∨ (a.month = b.month ∧ a.day < b.day)))

instance (a b : Date) : Decidable (Date.le a b) := by
  unfold Date.le
  infer_instance

instance (a b : Date) : Decidable (Date.lt a b) := by
  unfold Date.lt
  infer_instance

/-- Gregorian leap-year rule used by Python `datetime`. -/
def isLeap (y : Nat) : Bool :=
  y % 4 == 0 && (y % 100 != 0 || y % 400 == 0)

/-- Number of days in a month of a given year. -/
def daysInMonth (y m : Nat) : Nat :=
  if m = 2 then (if isLeap y then 29 else 28)
  else if m = 4 ∨ m = 6 ∨ m = 9 ∨ m = 11 then 30
  else 31

/-- Validity of a date, exactly the checks of the `datetime.date`
constructor (`MINYEAR = 1`, `MAXYEAR = 9999`). -/
def Date.valid (d : Date) : Prop :=
  1 ≤ d.year ∧ d.year ≤ 9999 ∧ 1 ≤ d.month ∧ d.month ≤ 12 ∧
    1 ≤ d.day ∧ d.day ≤ daysInMonth d.year d.month

instance (d : Date) : Decidable (Date.valid d) := by
  unfold Date.valid
  infer_instance

/-- The `datetime.date(y, m, d)` constructor: a valid date, or a
`ValueError` modelled as `none`. -/
def mkDate (y m d : Nat) : Option Date :=
  if Date.valid ⟨y, m, d⟩ then some ⟨y, m, d⟩ else none

/-- Adding `timedelta(days=1)` to a date. -/
def nextDate (x : Date) : Date :=
  if x.day < daysInMonth x.year x.month then ⟨x.year, x.month, x.day + 1⟩
  else if x.month < 12 then ⟨x.year, x.month + 1, 1⟩
  else ⟨x.year + 1, 1, 1⟩

/-- Cumulative day count before the given month (proleptic Gregorian),
used for `date.toordinal`. -/
def daysBeforeMonth (y m : Nat) : Nat :=
  (if m > 1 then 31 else 0) + (if m > 2 then daysInMonth y 2 else 0) +
  (if m > 3 then 31 else 0) + (if m > 4 then 30 else 0) +
  (if m > 5 then 31 else 0) + (if m > 6 then 30 else 0) +
  (if m > 7 then 31 else 0) + (if m > 8 then 31 else 0) +
  (if m > 9 then 30 else 0) + (if m > 10 then 31 else 0) +
  (if m > 11 then 30 else 0)

/-- Python `date.toordinal`: day 1 is 0001-01-01. -/
def Date.toordinal (d : Date) : Nat :=
  365 * (d.year - 1) + (d.year - 1) / 4 - (d.year - 1) / 100 +
    (d.year - 1) / 400 + daysBeforeMonth d.year d.month + d.day

/-- Python `date.weekday()`: 0 = Monday … 6 = Sunday. -/
def Date.weekday (d : Date) : Nat :=
  (d.toordinal + 6) % 7

/-- Decimal digit to character, by code point arithmetic. -/
def digitChar (n : Nat) : Char :=
  Char.ofNat (48 + n)

/-- Character to decimal digit, `none` on non-digits. -/
def digitVal (c : Char) : Option Nat :=
  if 48 ≤ c.toNat ∧ c.toNat ≤ 57 then some (c.toNat - 48) else none

/-- Most-significant-first decimal digits of a natural number, with
explicit fuel (empty for 0; always used under zero padding). -/
def natToDigitsAux : Nat → Nat → List Char
  | 0, _ => []
  | fuel + 1, n =>
    if n = 0 then [] else natToDigitsAux fuel (n / 10) ++ [digitChar (n % 10)]

/-- Most-significant-first decimal digits of a natural number. -/
def natToDigits (n : Nat) : List Char :=
  natToDigitsAux n n

/-- Zero-padded decimal rendering, as Python format specifiers such as
04d and 02d. -/
def padNum (w n : Nat) : List Char :=
  List.replicate (w - (natToDigits n).length) '0' ++ natToDigits n

/-- Parse a most-significant-first digit string, folding an accumulator. -/
def parseNatAux : List Char → Nat → Option Nat
  | [], acc => some acc
  | c :: cs, acc =>
    match digitVal c with
    | some d => parseNatAux cs (acc * 10 + d)
    | none => none

/-- Parse a decimal numeral. -/
def parseNum (cs : List Char) : Option Nat :=
  parseNatAux cs 0

/-- Python `datetime.isoformat()`:
YYYY-MM-DDTHH:MM:SS with zero padding. -/
def isoformat (dt : DateTime) : String :=
  ⟨padNum 4 dt.date.year ++ '-' ::
    (padNum 2 dt.date.month ++ '-' ::
      (padNum 2 dt.date.day ++ 'T' ::
        (padNum 2 dt.time.hour ++ ':' ::
          (padNum 2 dt.time.minute ++ ':' :: padNum 2 dt.time.second))))⟩

/-- Parse the 10-character date part YYYY-MM-DD of an ISO string,
with the validity checks of the `date` constructor. -/
def parseDateChars (cs : List Char) : Option Date :=
  match cs with
  | [y1, y2, y3, y4, s1, m1, m2, s2, d1, d2] =>
    if s1 = '-' ∧ s2 = '-' then
      match parseNum [y1, y2, y3, y4], parseNum [m1, m2], parseNum [d1, d2] with
      | some y, some mo, some d => mkDate y mo d
      | _, _, _ => none
    else none
  | _ => none

/-- Parse the time part HH:MM or HH:MM:SS of an ISO string. -/
def parseTimeChars (cs : List Char) : Option Time :=
  match cs with
  | [h1, h2, s1, m1, m2] =>
    if s1 = ':' then
      match parseNum [h1, h2], parseNum [m1, m2] with
      | some h, some mi =>
        if h ≤ 23 ∧ mi ≤ 59 then some ⟨h, mi, 0⟩ else none
      | _, _ => none
    else none
  | [h1, h2, s1, m1, m2, s2, c1, c2] =>
    if s1 = ':' ∧ s2 = ':' then
      match parseNum [h1, h2], parseNum [m1, m2], parseNum [c1, c2] with
      | some h, some mi, some se =>
        if h ≤ 23 ∧ mi ≤ 59 ∧ se ≤ 59 then some ⟨h, mi, se⟩ else none
      | _, _, _ => none
    else none
  | _ => none

/-- Python `datetime.fromisoformat`: a 10-character date, optionally
followed by a one-character separator and a time of day; any failure is
a `ValueError`, modelled as `none`. -/
def parseISO (s : String) : Option DateTime :=
  let cs := s.toList
  if cs.length = 10 then
    (parseDateChars cs).map (fun d => ⟨d, ⟨0, 0, 0⟩⟩)
  else
    match parseDateChars (cs.take 10), parseTimeChars (cs.drop 11) with
    | some d, some t => some ⟨d, t⟩
    | _, _ => none

/-- A `Task` object, as constructed in `task.py`, with the same field
defaults. `start_time` is an ISO datetime string or `None`. -/
structure Task where
  title : String
  start_time : Option String := none
  completed : Bool := false
  source : String := "local"
  event_id : Option String := none
  is_recurring : Bool := false
  repeat_days : Option String := none
  priority : String := "medium"
deriving DecidableEq

/-- A stored row of the SQLite `tasks` table. `is_recurring` and
`repeat_days` may be SQL NULL (rows that predate the schema migration),
hence the `Option` types. -/
structure Item where
  id : Nat
  title : String
  start_time : Option String
  completed : Bool
  source : String
  event_id : Option String
  is_recurring : Option Bool
  repeat_days : Option String
  priority : String
deriving DecidableEq

/-- The 8-column tuple produced by the schedule SELECT statements:
(id, title, start_time, source, completed, event_id, is_recurring,
repeat_days). The WHERE clauses require `start_time IS NOT NULL`, so
`start_time` is a plain string here. -/
structure Row where
  id : Nat
  title : String
  start_time : String
  source : String
  completed : Bool
  event_id : Option String
  is_recurring : Option Bool
  repeat_days : Option String
deriving DecidableEq

/-- Project a stored row onto the 8-column schedule tuple. -/
def rowOf (i : Item) : Row :=
  ⟨i.id, i.title, i.start_time.getD "", i.source, i.completed,
    i.event_id, i.is_recurring, i.repeat_days⟩

/-- The `tasks` table with its AUTOINCREMENT id counter. -/
structure DB where
  nextId : Nat
  rows : List Item
deriving DecidableEq

/-- `DatabaseManager.add_task`: INSERT one row carrying the fields of
the task; the id comes from the AUTOINCREMENT counter. -/
def add_task (db : DB) (t : Task) : DB :=
  ⟨db.nextId + 1,
    db.rows ++ [⟨db.nextId, t.title, t.start_time, t.completed, t.source,
      t.event_id, some t.is_recurring, t.repeat_days, t.priority⟩]⟩

/-- `DatabaseManager.add_schedule_item`: raise `ValueError` when the
task has no `start_time` (Python falsiness: `None` or the empty
string), otherwise delegate to `add_task`. -/
def add_schedule_item (db : DB) (t : Task) : Except String DB :=
  if t.start_time = none ∨ t.start_time = some "" then
    Except.error "Schedule items must have a start_time"
  else
    Except.ok (add_task db t)

/-- Insert into a sorted list, before the first element not strictly
smaller — the standard stable insertion. -/
def insertOrd {α : Type} (le : α → α → Bool) (a : α) : List α → List α
  | [] => [a]
  | b :: bs => if le a b then a :: b :: bs else b :: insertOrd le a bs

/-- A stable ascending sort, modelling Python `list.sort(key=...)`
(any two stable sorts agree elementwise for a total transitive
comparator, so insertion sort is observationally Timsort). -/
def stableSort {α : Type} (le : α → α → Bool) : List α → List α
  | [] => []
  | x :: xs => insertOrd le x (stableSort le xs)

/-- Python string comparison: lexicographic on the character list. -/
def strLe (a b : String) : Bool :=
  !decide (b.data < a.data)

/-- Python `str.split(sep)` for a one-character separator, on the
character list. -/
def pySplitAux (sep : Char) : List Char → List (List Char)
  | [] => [[]]
  | c :: rest =>
    if c = sep then [] :: pySplitAux sep rest
    else
      match pySplitAux sep rest with
      | [] => [[c]]
      | g :: gs => (c :: g) :: gs

/-- Python `str.split(sep)` for a one-character separator. -/
def pySplit (sep : Char) (s : String) : List String :=
  (pySplitAux sep s.data).map (fun g => (⟨g⟩ : String))

/-- The sort key used by every schedule query,
the Python lambda of the form: x[2] if x[2] else "". -/
def sortKeyRow (r : Row) : String :=
  if r.start_time = "" then "" else r.start_time

/-- Boolean comparator on rows for the final chronological sort. -/
def rowLe (a b : Row) : Bool :=
  strLe (sortKeyRow a) (sortKeyRow b)

/-- SQLite `DATE(start_time)` on a stored string: the date part when
the string parses, NULL (here `none`) otherwise. -/
def sqlDate (s : String) : Option Date :=
  (parseISO s).map DateTime.date

/-- WHERE clause of the non-recurring SELECT shared by the schedule
queries, parameterized by the date window predicate:
`start_time IS NOT NULL AND <window on DATE(start_time)> AND
completed = 0 AND (is_recurring = 0 OR is_recurring IS NULL)`. -/
def oneShotKeep (window : Date → Bool) (i : Item) : Bool :=
  match i.start_time with
  | none => false
  | some st =>
    match sqlDate st with
    | none => false
    | some d => window d && !i.completed && !(i.is_recurring = some true : Bool)

/-- The non-recurring SELECT: filter, project to the 8-column tuple,
`ORDER BY start_time ASC`. -/
def selectOneShot (items : List Item) (window : Date → Bool) : List Row :=
  stableSort rowLe ((items.filter (oneShotKeep window)).map rowOf)

/-- WHERE clause of the recurring SELECT shared by the schedule
queries: `start_time IS NOT NULL AND is_recurring = 1 AND
repeat_days IS NOT NULL AND completed = 0`. -/
def recurKeep (i : Item) : Bool :=
  i.start_time.isSome && (i.is_recurring = some true : Bool) &&
    i.repeat_days.isSome && !i.completed

/-- The recurring SELECT. -/
def selectRecurring (items : List Item) : List Row :=
  (items.filter recurKeep).map rowOf

/-- One loop body of the recurring-instance generation: for the date
`cur` and a recurring row, test
`repeat_days_str and str(weekday) in repeat_days_str.split(",")`,
then inside try/except parse the stored `start_time` and rebuild the
tuple with `datetime.combine(cur, original.time()).isoformat()`. -/
def recurInstance (cur : Date) (ev : Row) : Option Row :=
  let rds := ev.repeat_days.getD ""
  if rds ≠ "" ∧ (pySplit ',' rds).contains (toString cur.weekday) then
    (parseISO ev.start_time).map
      (fun odt => { ev with start_time := isoformat ⟨cur, odt.time⟩ })
  else
    none

/-- Every month length lies between 28 and 31 days. -/
lemma daysInMonth_bounds (y m : Nat) :
    28 ≤ daysInMonth y m ∧ daysInMonth y m ≤ 31 := by
  unfold daysInMonth
  split
  · split <;> omega
  · split <;> omega

/-- An upper bound on the number of loop iterations left when the
current date is `s` and the bound is `e`. -/
def dateFuel (s e : Date) : Nat :=
  (e.year + 1 - s.year) * 2000 + (13 - s.month) * 40 + (32 - s.day)

/-- Fuelled loop body of the inclusive day-by-day iteration. -/
def dateRangeLoopIncl (e : Date) : Nat → Date → List Date
  | 0, _ => []
  | fuel + 1, cur =>
    if Date.le cur e then cur :: dateRangeLoopIncl e fuel (nextDate cur) else []

/-- Day-by-day iteration of the range expansion:
`while current_date <= end_date`. -/
def dateRangeIncl (s e : Date) : List Date :=
  dateRangeLoopIncl e (dateFuel s e) s

/-- Fuelled loop body of the exclusive day-by-day iteration. -/
def dateRangeLoopExcl (e : Date) : Nat → Date → List Date
  | 0, _ => []
  | fuel + 1, cur =>
    if Date.lt cur e then cur :: dateRangeLoopExcl e fuel (nextDate cur) else []

/-- Day-by-day iteration of the month expansion:
`while current_date < last_day`. -/
def dateRangeExcl (s e : Date) : List Date :=
  dateRangeLoopExcl e (dateFuel s e) s

/-- The recurring-instance generation loop: dates outer, recurring rows
inner, appending each synthesized instance. -/
def expandRecurring (recur : List Row) (dates : List Date) : List Row :=
  dates.flatMap (fun cur => recur.filterMap (recurInstance cur))

/-- `DatabaseManager.get_schedule_by_date_range`: non-recurring events
with `DATE(start_time)` in the closed interval, plus recurring
instances for every date of the inclusive range, sorted by the raw
`start_time` string. -/
def get_schedule_by_date_range (items : List Item) (start_date end_date : Date) :
    List Row :=
  stableSort rowLe
    ((selectOneShot items
      (fun d => decide (Date.le start_date d) && decide (Date.le d end_date))) ++
    expandRecurring (selectRecurring items) (dateRangeIncl start_date end_date))

/-- Body of `get_schedule_by_month` once the month bounds exist:
the closed-open window `[first_day, last_day)`. -/
def monthEvents (items : List Item) (first_day last_day : Date) : List Row :=
  stableSort rowLe
    ((selectOneShot items
      (fun d => decide (Date.le first_day d) && decide (Date.lt d last_day))) ++
    expandRecurring (selectRecurring items) (dateRangeExcl first_day last_day))

/-- `DatabaseManager.get_schedule_by_month`: build the first day of the
month and the first day of the next month with the `date` constructor
(a `ValueError` propagates to the caller), then expand over the
half-open window. -/
def get_schedule_by_month (items : List Item) (year month : Nat) :
    Except String (List Row) :=
  if month = 12 then
    match mkDate year month 1, mkDate (year + 1) 1 1 with
    | some f, some l => Except.ok (monthEvents items f l)
    | _, _ => Except.error "ValueError"
  else
    match mkDate year month 1, mkDate year (month + 1) 1 with
    | some f, some l => Except.ok (monthEvents items f l)
    | _, _ => Except.error "ValueError"

/-- `DatabaseManager.get_today_schedule_full`: today's non-recurring
events plus today's matching recurring instances, sorted, truncated to
`limit`. -/
def get_today_schedule_full (items : List Item) (today : Date) (limit : Nat) :
    List Row :=
  (stableSort rowLe
    ((selectOneShot items (fun d => decide (d = today))) ++
      (selectRecurring items).filterMap (recurInstance today))).take limit

/-- Sort key of `get_today_schedule` on its (title, start_time) pairs. -/
def sortKeyPair (p : String × String) : String :=
  if p.2 = "" then "" else p.2

/-- Comparator for the (title, start_time) variant. -/
def pairLe (a b : String × String) : Bool :=
  strLe (sortKeyPair a) (sortKeyPair b)

/-- One recurring loop body of `get_today_schedule`, producing a
(title, start_time) pair. -/
def recurInstancePair (today : Date) (i : Item) : Option (String × String) :=
  let rds := i.repeat_days.getD ""
  if rds ≠ "" ∧ (pySplit ',' rds).contains (toString today.weekday) then
    (parseISO (i.start_time.getD "")).map
      (fun odt => (i.title, isoformat ⟨today, odt.time⟩))
  else
    none

/-- `DatabaseManager.get_today_schedule`: the (title, start_time)
variant with default limit 3. -/
def get_today_schedule (items : List Item) (today : Date) (limit : Nat) :
    List (String × String) :=
  (stableSort pairLe
    (stableSort pairLe ((items.filter (oneShotKeep (fun d => decide (d = today)))).map
        (fun i => (i.title, i.start_time.getD ""))) ++
      (items.filter recurKeep).filterMap (recurInstancePair today))).take limit

/-- The per-row comparison of the popup conflict loops: parse the
existing start_time (any failure is swallowed by try/except) and
compare `existing_dt.date() == event_date and existing_dt.hour ==
dt.hour and existing_dt.minute == dt.minute`. -/
def sameSlot (event_date : Date) (dt : DateTime) (s : String) : Bool :=
  match parseISO s with
  | some edt =>
    decide (edt.date = event_date) && decide (edt.time.hour = dt.time.hour) &&
      decide (edt.time.minute = dt.time.minute)
  | none => false

/-- The conflict loop of `EventManager.create_event_from_popup` over
the rows of `get_schedule_by_date_range(event_date, event_date)`:
`true` means the error popup is shown and the event is not created. -/
def create_event_conflict (existing : List Row) (dt : DateTime) : Bool :=
  existing.any (fun ev =>
    !(ev.start_time = "" : Bool) && sameSlot dt.date dt ev.start_time)

/-- The conflict loop of `EventManager.update_event_from_popup`: the
same loop, skipping every row whose id equals the event being edited. -/
def update_event_conflict (existing : List Row) (event_id : Nat) (dt : DateTime) :
    Bool :=
  existing.any (fun ev =>
    !(ev.id = event_id : Bool) && !(ev.start_time = "" : Bool) &&
      sameSlot dt.date dt ev.start_time)

/-- One step of the `event_times` dictionary construction in
`add_event_voice` (`main.py`): insert the (hour, minute) key with the
row's title, first occurrence winning. -/
def eventTimesStep (event_date : Date) (acc : List ((Nat × Nat) × String))
    (ev : Row) : List ((Nat × Nat) × String) :=
  if ev.start_time = "" then acc
  else
    match parseISO ev.start_time with
    | some edt =>
      if edt.date = event_date ∧
          ¬ (acc.any (fun p => p.1 = (edt.time.hour, edt.time.minute))) then
        acc ++ [((edt.time.hour, edt.time.minute), ev.title)]
      else acc
    | none => acc

/-- The pre-parsed `event_times` dictionary of `add_event_voice`, as an
insertion-ordered association list. -/
def eventTimes (existing : List Row) (event_date : Date) :
    List ((Nat × Nat) × String) :=
  existing.foldl (eventTimesStep event_date) []

/-- Dictionary lookup in `event_times`. -/
def lookupTime (et : List ((Nat × Nat) × String)) (k : Nat × Nat) :
    Option String :=
  (et.find? (fun p => p.1 = k)).map Prod.snd

/-- The (hour, minute) pair of the probed alternative
`alt_time = dt_obj + timedelta(minutes=offset)`. -/
def altKey (dt : DateTime) (offset : Int) : Nat × Nat :=
  let tm := (((dt.time.hour * 60 + dt.time.minute : Int) + offset) % 1440).toNat
  (tm / 60, tm % 60)

/-- The 12-hour clock rendering of a suggestion in `add_event_voice`:
hour `% 12` with 0 mapped to 12, zero-padded minutes omitted when zero,
lower-case am/pm. -/
def fmt12 (k : Nat × Nat) : String :=
  (toString (if k.1 % 12 = 0 then 12 else k.1 % 12)) ++
    (if k.2 > 0 then ":" ++ (⟨padNum 2 k.2⟩ : String) else "") ++
    (if k.1 < 12 then "am" else "pm")

/-- The suggestion loop of `add_event_voice`: probe the fixed offsets,
append the rendering of each free slot, break once 3 suggestions are
collected. -/
def suggestLoop (et : List ((Nat × Nat) × String)) (dt : DateTime)
    (acc : List String) : List Int → List String
  | [] => acc
  | o :: os =>
    if ¬ (et.any (fun p => p.1 = altKey dt o)) then
      let acc2 := acc ++ [fmt12 (altKey dt o)]
      if acc2.length ≥ 3 then acc2 else suggestLoop et dt acc2 os
    else
      suggestLoop et dt acc os

/-- The alternative-time suggestions for a conflicting candidate:
offsets -60, -30, +30, +60 minutes, in that fixed order. -/
def suggestTimes (et : List ((Nat × Nat) × String)) (dt : DateTime) :
    List String :=
  suggestLoop et dt [] [-60, -30, 30, 60]

/-- The conflict branch of `add_event_voice` in `main.py`: build the
`event_times` dictionary over the day's occurrences, signal a conflict
when the candidate's (hour, minute) key is present, carrying the stored
title and the suggestion list (possibly empty). `none` means no
conflict and the event is added. -/
def add_event_voice_conflict (existing : List Row) (dt : DateTime) :
    Option (String × List String) :=
  let et := eventTimes existing dt.date
  match lookupTime et (dt.time.hour, dt.time.minute) with
  | some title => some (title, suggestTimes et dt)
  | none => none

/-! Auxiliary lemmas about decimal rendering and parsing. -/

lemma digitVal_digitChar {n : Nat} (h : n < 10) : digitVal (digitChar n) = some n := by
  interval_cases n <;> rfl

lemma natToDigitsAux_eq (fuel n : Nat) (h : n ≤ fuel) :
    natToDigitsAux fuel n = ((Nat.digits 10 n).map digitChar).reverse := by
  induction fuel generalizing n with
  | zero =>
    have hn : n = 0 := by omega
    subst hn
    simp [natToDigitsAux]
  | succ fuel ih =>
    by_cases hn : n = 0
    · subst hn
      simp [natToDigitsAux]
    · have hpos : 0 < n := Nat.pos_of_ne_zero hn
      have hstep : natToDigitsAux (fuel + 1) n =
          natToDigitsAux fuel (n / 10) ++ [digitChar (n % 10)] := by
        simp [natToDigitsAux, hn]
      rw [hstep]
      have hdiv : n / 10 ≤ fuel := by
        have := Nat.div_lt_self hpos (by norm_num : 1 < 10)
        omega
      rw [ih (n / 10) hdiv]
      rw [Nat.digits_def' (by norm_num : (1 : Nat) < 10) hpos]
      simp [List.reverse_cons]

lemma natToDigits_eq_digits (n : Nat) :
    natToDigits n = ((Nat.digits 10 n).map digitChar).reverse :=
  natToDigitsAux_eq n n le_rfl

lemma parseNatAux_map_digitChar (ds : List Nat) (acc : Nat)
    (h : ∀ x ∈ ds, x < 10) :
    parseNatAux (ds.map digitChar) acc =
      some (ds.foldl (fun a d => a * 10 + d) acc) := by
  induction ds generalizing acc with
  | nil => rfl
  | cons x xs ih =>
    have hx : x < 10 := h x (by simp)
    simp only [List.map_cons, parseNatAux, digitVal_digitChar hx, List.foldl_cons]
    exact ih _ (fun y hy => h y (by simp [hy]))

lemma foldl_reverse_eq_ofDigits (l : List Nat) (acc : Nat) :
    l.reverse.foldl (fun a d => a * 10 + d) acc =
      acc * 10 ^ l.length + Nat.ofDigits 10 l := by
  induction l generalizing acc with
  | nil => simp
  | cons x xs ih =>
    simp only [List.reverse_cons, List.foldl_append, ih, List.foldl_cons,
      List.foldl_nil, Nat.ofDigits_cons, List.length_cons]
    ring

lemma parseNatAux_replicate_zero (k : Nat) (acc : Nat) :
    parseNatAux (List.replicate k '0') acc = some (acc * 10 ^ k) := by
  induction k generalizing acc with
  | zero => simp [parseNatAux]
  | succ k ih =>
    simp only [List.replicate_succ, parseNatAux]
    rw [show digitVal '0' = some 0 from rfl]
    dsimp only
    rw [ih]
    congr 1
    ring

lemma parseNatAux_append (xs ys : List Char) (acc : Nat) :
    parseNatAux (xs ++ ys) acc =
      (parseNatAux xs acc).bind (fun a => parseNatAux ys a) := by
  induction xs generalizing acc with
  | nil => rfl
  | cons c cs ih =>
    simp only [List.cons_append, parseNatAux]
    match digitVal c with
    | some d => exact ih _
    | none => rfl

lemma parseNum_padNum (w n : Nat) : parseNum (padNum w n) = some n := by
  unfold parseNum padNum
  rw [parseNatAux_append]
  rw [parseNatAux_replicate_zero]
  rw [Option.some_bind]
  have h1 : natToDigits n = ((Nat.digits 10 n).reverse).map digitChar := by
    rw [natToDigits_eq_digits, List.map_reverse]
  rw [h1, parseNatAux_map_digitChar _ _ (fun x hx => by
    exact Nat.digits_lt_base (by norm_num) (List.mem_reverse.mp hx))]
  rw [foldl_reverse_eq_ofDigits]
  simp [Nat.ofDigits_digits]

lemma padNum_inj {w a b : Nat} (h : padNum w a = padNum w b) : a = b := by
  have ha := parseNum_padNum w a
  rw [h, parseNum_padNum] at ha
  injection ha with ha
  omega

lemma padNum_digits {w n : Nat} : ∀ c ∈ padNum w n, (digitVal c).isSome := by
  intro c hc
  unfold padNum at hc
  rcases List.mem_append.mp hc with h | h
  · rw [List.eq_of_mem_replicate h]
    rfl
  · rw [natToDigits_eq_digits] at h
    rw [List.mem_reverse, List.mem_map] at h
    obtain ⟨d, hd, rfl⟩ := h
    rw [digitVal_digitChar (Nat.digits_lt_base (by norm_num) hd)]
    rfl

lemma sep_split {sep : Char} (hsep : digitVal sep = none) :
    ∀ (a c b d : List Char), (∀ x ∈ a, (digitVal x).isSome) →
      (∀ x ∈ c, (digitVal x).isSome) →
      a ++ sep :: b = c ++ sep :: d → a = c ∧ b = d := by
  intro a
  induction a with
  | nil =>
    intro c b d _ hc h
    cases c with
    | nil => simpa using h
    | cons x xs =>
      simp only [List.nil_append, List.cons_append, List.cons.injEq] at h
      have := hc x (by simp)
      rw [← h.1, hsep] at this
      simp at this
  | cons x xs ih =>
    intro c b d ha hc h
    cases c with
    | nil =>
      simp only [List.cons_append, List.nil_append, List.cons.injEq] at h
      have := ha x (by simp)
      rw [h.1, hsep] at this
      simp at this
    | cons y ys =>
      simp only [List.cons_append, List.cons.injEq] at h
      obtain ⟨h1, h2⟩ := h
      obtain ⟨h3, h4⟩ := ih ys b d (fun z hz => ha z (by simp [hz]))
        (fun z hz => hc z (by simp [hz])) h2
      exact ⟨by rw [h1, h3], h4⟩

lemma isoformat_inj {d1 d2 : DateTime} (h : isoformat d1 = isoformat d2) :
    d1 = d2 := by
  unfold isoformat at h
  have hl := congrArg String.toList h
  simp only [String.toList] at hl
  obtain ⟨e1, hl⟩ := sep_split (show digitVal '-' = none from rfl) _ _ _ _
    padNum_digits padNum_digits hl
  obtain ⟨e2, hl⟩ := sep_split (show digitVal '-' = none from rfl) _ _ _ _
    padNum_digits padNum_digits hl
  obtain ⟨e3, hl⟩ := sep_split (show digitVal 'T' = none from rfl) _ _ _ _
    padNum_digits padNum_digits hl
  obtain ⟨e4, hl⟩ := sep_split (show digitVal ':' = none from rfl) _ _ _ _
    padNum_digits padNum_digits hl
  obtain ⟨e5, e6⟩ := sep_split (show digitVal ':' = none from rfl) _ _ _ _
    padNum_digits padNum_digits hl
  obtain ⟨⟨y1, m1, dd1⟩, ⟨h1, mi1, s1⟩⟩ := d1
  obtain ⟨⟨y2, m2, dd2⟩, ⟨h2, mi2, s2⟩⟩ := d2
  simp only at e1 e2 e3 e4 e5 e6
  rw [padNum_inj e1, padNum_inj e2, padNum_inj e3, padNum_inj e4,
    padNum_inj e5, padNum_inj e6]

/-! Order lemmas on dates and the date-iteration loops. -/

lemma Date.le_trans {a b c : Date} (h1 : Date.le a b) (h2 : Date.le b c) :
    Date.le a c := by
  unfold Date.le at *
  omega

lemma Date.not_le_of_lt {a b : Date} (h : Date.lt a b) : ¬ Date.le b a := by
  unfold Date.le Date.lt at *
  omega

lemma Date.lt_of_lt_of_le {a b c : Date} (h1 : Date.lt a b) (h2 : Date.le b c) :
    Date.lt a c := by
  unfold Date.le Date.lt at *
  omega

lemma Date.ne_of_lt {a b : Date} (h : Date.lt a b) : a ≠ b := by
  intro heq
  subst heq
  unfold Date.lt at h
  omega

lemma nextDate_lt (x : Date) : Date.lt x (nextDate x) := by
  unfold nextDate Date.lt
  split
  · dsimp only
    omega
  · split
    · dsimp only
      omega
    · dsimp only
      omega

lemma Date.le_refl (a : Date) : Date.le a a := by
  unfold Date.le
  omega

lemma not_le_of_dateFuel_zero {s e : Date} (h : dateFuel s e = 0) :
    ¬ Date.le s e := by
  unfold dateFuel at h
  unfold Date.le
  omega

lemma dateFuel_decreasing {s e : Date} (h : Date.le s e) :
    dateFuel (nextDate s) e < dateFuel s e := by
  have hb := daysInMonth_bounds s.year s.month
  unfold Date.le at h
  unfold dateFuel nextDate
  split
  · dsimp only
    omega
  · split
    · dsimp only
      omega
    · dsimp only
      omega

lemma dateRangeLoopIncl_congr (e : Date) :
    ∀ (f1 f2 : Nat) (cur : Date), dateFuel cur e ≤ f1 → dateFuel cur e ≤ f2 →
      dateRangeLoopIncl e f1 cur = dateRangeLoopIncl e f2 cur := by
  intro f1
  induction f1 with
  | zero =>
    intro f2 cur h1 h2
    have h0 : dateFuel cur e = 0 := by omega
    have hle := not_le_of_dateFuel_zero h0
    cases f2 with
    | zero => rfl
    | succ f2 =>
      show dateRangeLoopIncl e 0 cur = dateRangeLoopIncl e (f2 + 1) cur
      unfold dateRangeLoopIncl
      rw [if_neg hle]
  | succ f1 ih =>
    intro f2 cur h1 h2
    cases f2 with
    | zero =>
      have h0 : dateFuel cur e = 0 := by omega
      have hle := not_le_of_dateFuel_zero h0
      unfold dateRangeLoopIncl
      rw [if_neg hle]
    | succ f2 =>
      unfold dateRangeLoopIncl
      by_cases hle : Date.le cur e
      · rw [if_pos hle, if_pos hle]
        have hdec := dateFuel_decreasing hle
        rw [ih f2 (nextDate cur) (by omega) (by omega)]
      · rw [if_neg hle, if_neg hle]

lemma dateRangeLoopIncl_succ (e : Date) (fuel : Nat) (cur : Date) :
    dateRangeLoopIncl e (fuel + 1) cur =
      if Date.le cur e then cur :: dateRangeLoopIncl e fuel (nextDate cur)
      else [] := rfl

lemma dateRangeIncl_eq (s e : Date) :
    dateRangeIncl s e =
      if Date.le s e then s :: dateRangeIncl (nextDate s) e else [] := by
  by_cases hle : Date.le s e
  · rw [if_pos hle]
    show dateRangeLoopIncl e (dateFuel s e) s =
      s :: dateRangeLoopIncl e (dateFuel (nextDate s) e) (nextDate s)
    cases hf : dateFuel s e with
    | zero => exact absurd hle (not_le_of_dateFuel_zero hf)
    | succ n =>
      rw [dateRangeLoopIncl_succ, if_pos hle]
      congr 1
      apply dateRangeLoopIncl_congr
      · have hd := dateFuel_decreasing hle
        omega
      · exact le_rfl
  · rw [if_neg hle]
    show dateRangeLoopIncl e (dateFuel s e) s = []
    cases hf : dateFuel s e with
    | zero => rfl
    | succ n =>
      rw [dateRangeLoopIncl_succ, if_neg hle]

lemma le_of_mem_loopIncl (e : Date) :
    ∀ (fuel : Nat) (cur d : Date), d ∈ dateRangeLoopIncl e fuel cur →
      Date.le cur d := by
  intro fuel
  induction fuel with
  | zero =>
    intro cur d hd
    simp [dateRangeLoopIncl] at hd
  | succ fuel ih =>
    intro cur d hd
    unfold dateRangeLoopIncl at hd
    by_cases hle : Date.le cur e
    · rw [if_pos hle] at hd
      rcases List.mem_cons.mp hd with rfl | hd2
      · exact Date.le_refl d
      · have h2 := ih (nextDate cur) d hd2
        have h3 := nextDate_lt cur
        unfold Date.le Date.lt at *
        omega
    · rw [if_neg hle] at hd
      simp at hd

lemma pairwise_lt_loopIncl (e : Date) :
    ∀ (fuel : Nat) (cur : Date),
      (dateRangeLoopIncl e fuel cur).Pairwise Date.lt := by
  intro fuel
  induction fuel with
  | zero =>
    intro cur
    exact List.Pairwise.nil
  | succ fuel ih =>
    intro cur
    unfold dateRangeLoopIncl
    by_cases hle : Date.le cur e
    · rw [if_pos hle]
      refine List.Pairwise.cons ?_ (ih (nextDate cur))
      intro d hd
      exact Date.lt_of_lt_of_le (nextDate_lt cur) (le_of_mem_loopIncl e fuel _ d hd)
    · rw [if_neg hle]
      exact List.Pairwise.nil

lemma le_of_mem_dateRangeIncl {s e d : Date} (h : d ∈ dateRangeIncl s e) :
    Date.le s d :=
  le_of_mem_loopIncl e (dateFuel s e) s d h

lemma pairwise_lt_dateRangeIncl (s e : Date) :
    (dateRangeIncl s e).Pairwise Date.lt :=
  pairwise_lt_loopIncl e (dateFuel s e) s

lemma nodup_dateRangeIncl (s e : Date) : (dateRangeIncl s e).Nodup :=
  (pairwise_lt_dateRangeIncl s e).imp Date.ne_of_lt

/-! Counting helpers. -/

lemma countP_unique_key {α κ : Type} [DecidableEq κ] (f : α → κ) (p : α → Bool)
    {l : List α} {a : α} (hn : (l.map f).Nodup) (ha : a ∈ l)
    (hp : ∀ x, p x = true → f x = f a) :
    l.countP p = if p a then 1 else 0 := by
  induction l with
  | nil => simp at ha
  | cons x xs ih =>
    rw [List.map_cons, List.nodup_cons] at hn
    rw [List.countP_cons]
    by_cases hxa : f x = f a
    · have hxa2 : a = x := by
        rcases List.mem_cons.mp ha with rfl | ha2
        · rfl
        · exact absurd (hxa ▸ List.mem_map_of_mem f ha2) hn.1
      subst hxa2
      have hzero : xs.countP p = 0 := by
        rw [List.countP_eq_zero]
        intro y hy hpy
        exact hn.1 ((hp y hpy) ▸ List.mem_map_of_mem f hy)
      rw [hzero]
      by_cases hpa : p a = true
      · simp [hpa]
      · simp [hpa]
    · have hpx : p x ≠ true := fun hpx => hxa (hp x hpx)
      have ha2 : a ∈ xs := by
        rcases List.mem_cons.mp ha with rfl | ha2
        · exact absurd rfl hxa
        · exact ha2
      rw [ih hn.2 ha2]
      simp [hpx]

lemma countP_flatMap {α β : Type} (p : β → Bool) (g : α → List β) (l : List α) :
    (l.flatMap g).countP p = (l.map (fun x => (g x).countP p)).sum := by
  rw [List.flatMap]
  rw [List.countP_flatten, List.map_map]
  rfl

lemma sum_map_ite_one {α : Type} [DecidableEq α] {l : List α} {d : α}
    (hnd : l.Nodup) (hd : d ∈ l) :
    (l.map (fun x => if x = d then 1 else 0)).sum = 1 := by
  induction l with
  | nil => simp at hd
  | cons x xs ih =>
    rw [List.nodup_cons] at hnd
    rcases List.mem_cons.mp hd with rfl | hd2
    · have h0 : (xs.map (fun y => if y = d then 1 else 0)).sum = 0 := by
        rw [List.sum_eq_zero]
        intro v hv
        rw [List.mem_map] at hv
        obtain ⟨y, hy, rfl⟩ := hv
        have hyd : y ≠ d := fun h => hnd.1 (h ▸ hy)
        simp [hyd]
      simp [h0]
    · have hxd : x ≠ d := fun h => hnd.1 (h ▸ hd2)
      simp [hxd, ih hnd.2 hd2]

/-! Stable sort and string comparison lemmas. -/

lemma insertOrd_perm {α : Type} (le : α → α → Bool) (a : α) :
    ∀ l : List α, (insertOrd le a l).Perm (a :: l) := by
  intro l
  induction l with
  | nil => exact List.Perm.refl _
  | cons b bs ih =>
    unfold insertOrd
    by_cases h : le a b = true
    · rw [if_pos h]
    · rw [if_neg h]
      exact (ih.cons b).trans (List.Perm.swap a b bs)

lemma stableSort_perm {α : Type} (le : α → α → Bool) :
    ∀ l : List α, (stableSort le l).Perm l := by
  intro l
  induction l with
  | nil => exact List.Perm.refl _
  | cons x xs ih =>
    exact (insertOrd_perm le x (stableSort le xs)).trans (ih.cons x)

lemma mem_stableSort {α : Type} {le : α → α → Bool} {a : α} {l : List α} :
    a ∈ stableSort le l ↔ a ∈ l :=
  (stableSort_perm le l).mem_iff

lemma mem_insertOrd {α : Type} {le : α → α → Bool} {x a : α} {l : List α} :
    x ∈ insertOrd le a l ↔ x = a ∨ x ∈ l := by
  rw [(insertOrd_perm le a l).mem_iff]
  simp

lemma sorted_insertOrd {α : Type} (le : α → α → Bool)
    (htrans : ∀ a b c, le a b = true → le b c = true → le a c = true)
    (htotal : ∀ a b, le a b || le b a) (a : α) :
    ∀ l : List α, l.Pairwise (fun x y => le x y = true) →
      (insertOrd le a l).Pairwise (fun x y => le x y = true) := by
  intro l
  induction l with
  | nil =>
    intro _
    simp [insertOrd]
  | cons b bs ih =>
    intro hp
    rw [List.pairwise_cons] at hp
    obtain ⟨hb, hbs⟩ := hp
    unfold insertOrd
    by_cases hab : le a b = true
    · rw [if_pos hab]
      refine List.Pairwise.cons ?_ (List.Pairwise.cons hb hbs)
      intro y hy
      rcases List.mem_cons.mp hy with rfl | hy2
      · exact hab
      · exact htrans a b y hab (hb y hy2)
    · rw [if_neg hab]
      have hba : le b a = true := by
        have htot := htotal a b
        have hab2 : le a b = false := by
          cases hx : le a b
          · rfl
          · exact absurd hx hab
        rw [hab2] at htot
        simpa using htot
      refine List.Pairwise.cons ?_ (ih hbs)
      intro y hy
      rcases mem_insertOrd.mp hy with rfl | hy2
      · exact hba
      · exact hb y hy2

lemma sorted_stableSort {α : Type} (le : α → α → Bool)
    (htrans : ∀ a b c, le a b = true → le b c = true → le a c = true)
    (htotal : ∀ a b, le a b || le b a) :
    ∀ l : List α, (stableSort le l).Pairwise (fun x y => le x y = true) := by
  intro l
  induction l with
  | nil => exact List.Pairwise.nil
  | cons x xs ih =>
    exact sorted_insertOrd le htrans htotal x (stableSort le xs) ih

lemma strLe_iff (a b : String) : strLe a b = true ↔ a ≤ b := by
  unfold strLe
  rw [String.le_iff_toList_le]
  constructor
  · intro h
    have h2 : ¬ (b.data < a.data) := by
      simpa using h
    exact not_lt.mp h2
  · intro h
    have h2 : ¬ (b.data < a.data) := not_lt.mpr h
    simpa using h2

/-! Evaluation lemmas for the schedule queries. -/

lemma countP_selectOneShot (items : List Item) (window : Date → Bool)
    (p : Row → Bool) :
    (selectOneShot items window).countP p =
      items.countP (fun i => p (rowOf i) && oneShotKeep window i) := by
  unfold selectOneShot
  rw [(stableSort_perm _ _).countP_eq, List.countP_map, List.countP_filter]
  rfl

lemma countP_filterMap_selectRecurring (items : List Item) (cur : Date)
    (p : Row → Bool) :
    ((selectRecurring items).filterMap (recurInstance cur)).countP p =
      items.countP
        (fun i => ((recurInstance cur (rowOf i)).map p).getD false && recurKeep i) := by
  unfold selectRecurring
  rw [List.filterMap_map, List.countP_filterMap, List.countP_filter]
  rfl

lemma countP_expandRecurring (items : List Item) (dates : List Date)
    (p : Row → Bool) :
    (expandRecurring (selectRecurring items) dates).countP p =
      (dates.map (fun cur => items.countP
        (fun i => ((recurInstance cur (rowOf i)).map p).getD false && recurKeep i))).sum := by
  unfold expandRecurring
  rw [countP_flatMap]
  exact congrArg List.sum
    (List.map_congr_left (fun cur _ => countP_filterMap_selectRecurring items cur p))

lemma recurInstance_id {cur : Date} {ev : Row} {r : Row}
    (h : recurInstance cur ev = some r) : r.id = ev.id := by
  unfold recurInstance at h
  dsimp only at h
  split at h
  · rcases Option.map_eq_some'.mp h with ⟨odt, _, rfl⟩
    rfl
  · exact absurd h (by simp)

lemma recurKeep_eval {i : Item} {st rd : String} (hst : i.start_time = some st)
    (hr : i.is_recurring = some true) (hrd : i.repeat_days = some rd)
    (hc : i.completed = false) : recurKeep i = true := by
  unfold recurKeep
  simp [hst, hr, hrd, hc]

lemma recurInstance_rowOf_eval {i : Item} {st rd : String} {odt : DateTime}
    (hst : i.start_time = some st) (hrd : i.repeat_days = some rd)
    (hp : parseISO st = some odt) (cur : Date) :
    recurInstance cur (rowOf i) =
      if rd ≠ "" ∧ (pySplit ',' rd).contains (toString cur.weekday) then
        some { rowOf i with start_time := isoformat ⟨cur, odt.time⟩ }
      else none := by
  unfold recurInstance rowOf
  simp only [hst, hrd, Option.getD_some, hp]
  split <;> rfl

lemma oneShotKeep_false_of_recurring {i : Item} (hr : i.is_recurring = some true)
    (window : Date → Bool) : oneShotKeep window i = false := by
  unfold oneShotKeep
  split
  · rfl
  · split
    · rfl
    · simp [hr]

lemma oneShotKeep_eval {i : Item} {st : String} {odt : DateTime}
    (hst : i.start_time = some st) (hp : parseISO st = some odt)
    (window : Date → Bool) :
    oneShotKeep window i =
      (window odt.date && !i.completed && !(decide (i.is_recurring = some true))) := by
  unfold oneShotKeep sqlDate
  simp only [hst, hp, Option.map_some']

/-- Shared counting normal form of `get_schedule_by_date_range` for a
predicate that pins the id of a single stored item. -/
lemma countP_range_eq (items : List Item) (s e : Date) (p : Row → Bool)
    (i : Item) (hn : (items.map Item.id).Nodup) (hi : i ∈ items)
    (hp : ∀ r : Row, p r = true → r.id = i.id) :
    (get_schedule_by_date_range items s e).countP p =
      (if p (rowOf i) &&
          oneShotKeep (fun d => decide (Date.le s d) && decide (Date.le d e)) i
        then 1 else 0) +
      ((dateRangeIncl s e).map (fun cur =>
        if ((recurInstance cur (rowOf i)).map p).getD false && recurKeep i
        then 1 else 0)).sum := by
  unfold get_schedule_by_date_range
  rw [(stableSort_perm _ _).countP_eq, List.countP_append]
  congr 1
  · rw [countP_selectOneShot]
    have hp2 : ∀ x : Item,
        (fun j => p (rowOf j) &&
          oneShotKeep (fun d => decide (Date.le s d) && decide (Date.le d e)) j) x =
            true →
          Item.id x = Item.id i := by
      intro x hx
      simp only [Bool.and_eq_true] at hx
      exact hp (rowOf x) hx.1
    rw [countP_unique_key Item.id _ hn hi hp2]
  · rw [countP_expandRecurring]
    refine congrArg List.sum (List.map_congr_left (fun cur _ => ?_))
    have hp2 : ∀ x : Item,
        (fun j => ((recurInstance cur (rowOf j)).map p).getD false && recurKeep j) x =
            true →
          Item.id x = Item.id i := by
      intro x hx
      simp only [Bool.and_eq_true] at hx
      obtain ⟨hx1, _⟩ := hx
      match hri : recurInstance cur (rowOf x) with
      | some r =>
        rw [hri] at hx1
        simp only [Option.map_some', Option.getD_some] at hx1
        have h1 := hp r hx1
        have h2 := recurInstance_id hri
        have h3 : (rowOf x).id = x.id := rfl
        omega
      | none =>
        rw [hri] at hx1
        simp at hx1
    rw [countP_unique_key Item.id _ hn hi hp2]

/-- Membership normal form of `get_schedule_by_date_range`: a returned
row is a selected one-shot row or a synthesized recurring instance. -/
lemma mem_range_iff {items : List Item} {s e : Date} {r : Row} :
    r ∈ get_schedule_by_date_range items s e ↔
      (∃ i, (i ∈ items ∧ oneShotKeep
          (fun d => decide (Date.le s d) && decide (Date.le d e)) i = true) ∧
        rowOf i = r) ∨
      (∃ cur, cur ∈ dateRangeIncl s e ∧
        ∃ i, (i ∈ items ∧ recurKeep i = true) ∧
          recurInstance cur (rowOf i) = some r) := by
  unfold get_schedule_by_date_range selectOneShot expandRecurring selectRecurring
  simp only [mem_stableSort, List.mem_append, List.mem_flatMap,
    List.mem_filterMap, List.mem_map, List.mem_filter]
  constructor
  · rintro (⟨i, ⟨hi, hk⟩, hr⟩ | ⟨cur, hcur, r2, ⟨i, ⟨hi, hk⟩, hr2⟩, hinst⟩)
    · exact Or.inl ⟨i, ⟨hi, hk⟩, hr⟩
    · exact Or.inr ⟨cur, hcur, i, ⟨hi, hk⟩, hr2 ▸ hinst⟩
  · rintro (⟨i, ⟨hi, hk⟩, hr⟩ | ⟨cur, hcur, i, ⟨hi, hk⟩, hinst⟩)
    · exact Or.inl ⟨i, ⟨hi, hk⟩, hr⟩
    · exact Or.inr ⟨cur, hcur, rowOf i, ⟨i, ⟨hi, hk⟩, rfl⟩, hinst⟩

lemma isoformat_date_iff (cur d : Date) (t : Time) :
    isoformat ⟨cur, t⟩ = isoformat ⟨d, t⟩ ↔ cur = d := by
  constructor
  · intro h
    have h2 := isoformat_inj h
    injection h2 with h3 _
  · intro h
    rw [h]

/-- Per-date evaluation of the recurring contribution of item `i` under
the id-and-start-time predicate. -/
lemma c1_term_eval {i : Item} {st rd : String} {odt : DateTime}
    (hst : i.start_time = some st) (hrd : i.repeat_days = some rd)
    (hrd0 : rd ≠ "") (hr : i.is_recurring = some true) (hc : i.completed = false)
    (hp : parseISO st = some odt) (d cur : Date) :
    (if ((recurInstance cur (rowOf i)).map
          (fun r => decide (r.id = i.id) &&
            decide (r.start_time = isoformat ⟨d, odt.time⟩))).getD false &&
        recurKeep i then 1 else 0) =
      (if (pySplit ',' rd).contains (toString cur.weekday) && decide (cur = d)
        then 1 else 0) := by
  rw [recurInstance_rowOf_eval hst hrd hp, recurKeep_eval hst hr hrd hc]
  have hid : ({ rowOf i with start_time := isoformat ⟨cur, odt.time⟩ } : Row).id
      = i.id := rfl
  have hstart :
      ({ rowOf i with start_time := isoformat ⟨cur, odt.time⟩ } : Row).start_time
        = isoformat ⟨cur, odt.time⟩ := rfl
  have hidrow : (rowOf i).id = i.id := rfl
  by_cases hw : (pySplit ',' rd).contains (toString cur.weekday) = true
  · have hcond : rd ≠ "" ∧ (pySplit ',' rd).contains (toString cur.weekday) = true :=
      ⟨hrd0, hw⟩
    have hmem : toString cur.weekday ∈ pySplit ',' rd := by
      simpa using hw
    by_cases hcd : cur = d
    · subst hcd
      simp [hcond, hmem, hid, hstart, hidrow]
    · have hne : isoformat ⟨cur, odt.time⟩ ≠ isoformat ⟨d, odt.time⟩ :=
        fun h => hcd ((isoformat_date_iff cur d odt.time).mp h)
      simp [hcond, hmem, hid, hstart, hidrow, hne, hcd]
  · have hcond : ¬ (rd ≠ "" ∧ (pySplit ',' rd).contains (toString cur.weekday) = true) :=
      fun h => hw h.2
    have hmem : ¬ (toString cur.weekday ∈ pySplit ',' rd) := by
      simpa using hw
    simp [hcond, hmem]

lemma contains_iff_mem_str {l : List String} {a : String} :
    l.contains a = true ↔ a ∈ l := by
  simp [List.contains]

/-- C1: in the range expansion, every non-completed recurring item with
non-empty `repeat_days` and parseable `start_time` contributes exactly
one synthesized occurrence on each iterated date whose weekday index is
listed in `repeat_days` — carrying that date, the item's stored
time-of-day, and all other fields copied — and contributes no
occurrence on any date (its anchor date included) whose weekday is not
listed. -/
theorem claim_C1 (items : List Item) (s e : Date) (i : Item) (rd st : String)
    (odt : DateTime) (hn : (items.map Item.id).Nodup) (hi : i ∈ items)
    (hc : i.completed = false) (hr : i.is_recurring = some true)
    (hrd : i.repeat_days = some rd) (hrd0 : rd ≠ "")
    (hst : i.start_time = some st) (hp : parseISO st = some odt) :
    (∀ d ∈ dateRangeIncl s e,
      toString d.weekday ∈ pySplit ',' rd →
        ((get_schedule_by_date_range items s e).countP
            (fun r => decide (r.id = i.id) &&
              decide (r.start_time = isoformat ⟨d, odt.time⟩)) = 1 ∧
          ({ rowOf i with start_time := isoformat ⟨d, odt.time⟩ } : Row) ∈
            get_schedule_by_date_range items s e)) ∧
    (∀ d : Date, toString d.weekday ∉ pySplit ',' rd →
      (get_schedule_by_date_range items s e).countP
          (fun r => decide (r.id = i.id) &&
            decide (r.start_time = isoformat ⟨d, odt.time⟩)) = 0) := by
  have hcount : ∀ d : Date,
      (get_schedule_by_date_range items s e).countP
          (fun r => decide (r.id = i.id) &&
            decide (r.start_time = isoformat ⟨d, odt.time⟩)) =
        ((dateRangeIncl s e).map (fun cur =>
          if (pySplit ',' rd).contains (toString cur.weekday) && decide (cur = d)
          then 1 else 0)).sum := by
    intro d
    rw [countP_range_eq items s e _ i hn hi
      (fun r h => by
        simp only [Bool.and_eq_true, decide_eq_true_eq] at h
        exact h.1)]
    rw [oneShotKeep_false_of_recurring hr]
    simp only [Bool.and_false, if_false, Bool.false_eq_true, ite_false, zero_add]
    exact congrArg List.sum
      (List.map_congr_left (fun cur _ =>
        c1_term_eval hst hrd hrd0 hr hc hp d cur))
  constructor
  · intro d hd hmem
    constructor
    · rw [hcount d]
      have hpt : ∀ cur ∈ dateRangeIncl s e,
          (if (pySplit ',' rd).contains (toString cur.weekday) &&
              decide (cur = d) then 1 else 0) =
            if cur = d then 1 else 0 := by
        intro cur _
        by_cases hcd : cur = d
        · subst hcd
          simp [hmem]
        · simp [hcd]
      rw [List.map_congr_left hpt]
      exact sum_map_ite_one (nodup_dateRangeIncl s e) hd
    · rw [mem_range_iff]
      refine Or.inr ⟨d, hd, i, ⟨hi, recurKeep_eval hst hr hrd hc⟩, ?_⟩
      rw [recurInstance_rowOf_eval hst hrd hp]
      rw [if_pos ⟨hrd0, contains_iff_mem_str.mpr hmem⟩]
  · intro d hmem
    rw [hcount d]
    rw [List.sum_eq_zero]
    intro v hv
    rw [List.mem_map] at hv
    obtain ⟨cur, _, rfl⟩ := hv
    by_cases hcd : cur = d
    · subst hcd
      simp [hmem]
    · simp [hcd]

lemma recurKeep_false_of_not_recurring {i : Item}
    (hr : i.is_recurring ≠ some true) : recurKeep i = false := by
  unfold recurKeep
  simp [hr]

/-- C2: in the range expansion, every non-completed one-shot item
(`is_recurring` false or NULL) whose parseable `start_time` has its
date inside the closed query window appears exactly once, as its
unchanged stored row; a one-shot item whose date falls outside the
window contributes no row at all. -/
theorem claim_C2 (items : List Item) (s e : Date) (i : Item) (st : String)
    (odt : DateTime) (hn : (items.map Item.id).Nodup) (hi : i ∈ items)
    (hc : i.completed = false) (hr : i.is_recurring ≠ some true)
    (hst : i.start_time = some st) (hp : parseISO st = some odt) :
    (Date.le s odt.date → Date.le odt.date e →
      (get_schedule_by_date_range items s e).countP
        (fun r => decide (r = rowOf i)) = 1) ∧
    (¬ (Date.le s odt.date ∧ Date.le odt.date e) →
      (get_schedule_by_date_range items s e).countP
        (fun r => decide (r.id = i.id)) = 0) := by
  have hzero : ∀ (p : Row → Bool),
      ((dateRangeIncl s e).map (fun cur =>
        if ((recurInstance cur (rowOf i)).map p).getD false && recurKeep i
        then 1 else 0)).sum = 0 := by
    intro p
    rw [List.sum_eq_zero]
    intro v hv
    rw [List.mem_map] at hv
    obtain ⟨cur, _, rfl⟩ := hv
    rw [recurKeep_false_of_not_recurring hr]
    simp
  constructor
  · intro h1 h2
    rw [countP_range_eq items s e _ i hn hi
      (fun r h => by
        have := of_decide_eq_true h
        rw [this]
        rfl)]
    rw [hzero]
    rw [oneShotKeep_eval hst hp]
    have hw : (decide (Date.le s odt.date) && decide (Date.le odt.date e)) = true := by
      simp [h1, h2]
    rw [hw]
    simp [hr, hc]
  · intro hout
    rw [countP_range_eq items s e _ i hn hi
      (fun r h => of_decide_eq_true h)]
    rw [hzero]
    rw [oneShotKeep_eval hst hp]
    have hw : (decide (Date.le s odt.date) && decide (Date.le odt.date e)) = false := by
      rcases Decidable.not_and_iff_or_not.mp hout with h | h <;> simp [h]
    rw [hw]
    simp

/-- A stored row that is recurring but whose `start_time` string does
not parse as an ISO timestamp. -/
def malformedRecurring (i : Item) : Bool :=
  decide (i.is_recurring = some true) && !(parseISO (i.start_time.getD "")).isSome

lemma oneShot_not_malformed {i : Item} {w : Date → Bool}
    (h : oneShotKeep w i = true) : malformedRecurring i = false := by
  unfold oneShotKeep at h
  unfold malformedRecurring
  split at h
  · exact absurd h (by simp)
  · split at h
    · exact absurd h (by simp)
    · simp only [Bool.and_eq_true] at h
      have h3 := h.2
      simp only [Bool.not_eq_true', decide_eq_false_iff_not] at h3
      simp [h3]

lemma recurInstance_none_of_parse_fail {cur : Date} {ev : Row}
    (h : parseISO ev.start_time = none) : recurInstance cur ev = none := by
  unfold recurInstance
  dsimp only
  split
  · rw [h]
    rfl
  · rfl

lemma filterMap_filter_congr {α β : Type} {p q : α → Bool} {g : α → Option β}
    (h : ∀ x, p x = true → q x = false → g x = none) :
    ∀ l : List α, (l.filter (fun a => p a && q a)).filterMap g =
      (l.filter p).filterMap g := by
  intro l
  induction l with
  | nil => rfl
  | cons x xs ih =>
    by_cases hp : p x = true
    · by_cases hq : q x = true
      · simp [List.filter_cons, hp, hq, List.filterMap_cons, ih]
      · have hq2 : q x = false := by
          cases hqx : q x
          · rfl
          · exact absurd hqx hq
        simp [List.filter_cons, hp, hq2, List.filterMap_cons, ih, h x hp hq2]
    · have hp2 : p x = false := by
        cases hpx : p x
        · rfl
        · exact absurd hpx hp
      simp [List.filter_cons, hp2, ih]

lemma selectOneShot_filter_wf (items : List Item) (window : Date → Bool) :
    selectOneShot (items.filter (fun i => !malformedRecurring i)) window =
      selectOneShot items window := by
  unfold selectOneShot
  rw [List.filter_filter]
  congr 2
  apply List.filter_congr
  intro x _
  cases hk : oneShotKeep window x
  · simp
  · simp [oneShot_not_malformed hk]

lemma filterMapRecur_filter_wf (items : List Item) (cur : Date) :
    (selectRecurring (items.filter (fun i => !malformedRecurring i))).filterMap
        (recurInstance cur) =
      (selectRecurring items).filterMap (recurInstance cur) := by
  unfold selectRecurring
  rw [List.filter_filter, List.filterMap_map, List.filterMap_map]
  apply filterMap_filter_congr
  intro x _ hq
  have hq2 : malformedRecurring x = true := by
    cases hb : malformedRecurring x
    · rw [hb] at hq
      simp at hq
    · rfl
  unfold malformedRecurring at hq2
  rw [Bool.and_eq_true] at hq2
  have h2 := hq2.2
  have h3 : parseISO (x.start_time.getD "") = none := by
    cases hcase : parseISO (x.start_time.getD "")
    · rfl
    · rw [hcase] at h2
      simp at h2
  apply recurInstance_none_of_parse_fail
  show parseISO ((rowOf x).start_time) = none
  exact h3

lemma expandRecurring_filter_wf (items : List Item) (dates : List Date) :
    expandRecurring
        (selectRecurring (items.filter (fun i => !malformedRecurring i))) dates =
      expandRecurring (selectRecurring items) dates := by
  unfold expandRecurring
  exact congrArg List.flatten
    (List.map_congr_left (fun cur _ => filterMapRecur_filter_wf items cur))

lemma monthEvents_filter_wf (items : List Item) (f l : Date) :
    monthEvents (items.filter (fun i => !malformedRecurring i)) f l =
      monthEvents items f l := by
  unfold monthEvents
  rw [selectOneShot_filter_wf, expandRecurring_filter_wf]

/-- C8: a recurring item whose stored `start_time` does not parse
yields no synthesized occurrence and does not abort any expansion:
removing every such item from the store leaves the output of the range,
month and today expansions unchanged, and under unique ids no output
row carries such an item's id. -/
theorem claim_C8 :
    (∀ (items : List Item) (s e : Date),
      get_schedule_by_date_range
          (items.filter (fun i => !malformedRecurring i)) s e =
        get_schedule_by_date_range items s e) ∧
    (∀ (items : List Item) (year month : Nat),
      get_schedule_by_month (items.filter (fun i => !malformedRecurring i))
          year month =
        get_schedule_by_month items year month) ∧
    (∀ (items : List Item) (today : Date) (limit : Nat),
      get_today_schedule_full (items.filter (fun i => !malformedRecurring i))
          today limit =
        get_today_schedule_full items today limit) ∧
    (∀ (items : List Item) (s e : Date) (i : Item),
      (items.map Item.id).Nodup → i ∈ items → i.is_recurring = some true →
      parseISO (i.start_time.getD "") = none →
        (get_schedule_by_date_range items s e).countP
          (fun r => decide (r.id = i.id)) = 0) := by
  refine ⟨?_, ?_, ?_, ?_⟩
  · intro items s e
    unfold get_schedule_by_date_range
    rw [selectOneShot_filter_wf, expandRecurring_filter_wf]
  · intro items year month
    unfold get_schedule_by_month
    split
    · cases mkDate year month 1 <;> cases mkDate (year + 1) 1 1 <;>
        simp [monthEvents_filter_wf]
    · cases mkDate year month 1 <;> cases mkDate year (month + 1) 1 <;>
        simp [monthEvents_filter_wf]
  · intro items today limit
    unfold get_today_schedule_full
    rw [selectOneShot_filter_wf, filterMapRecur_filter_wf]
  · intro items s e i hn hi hr hfail
    rw [countP_range_eq items s e _ i hn hi (fun r h => of_decide_eq_true h)]
    rw [oneShotKeep_false_of_recurring hr]
    have hnone : ∀ cur : Date, recurInstance cur (rowOf i) = none := by
      intro cur
      apply recurInstance_none_of_parse_fail
      exact hfail
    simp [hnone]

/-! Sortedness. -/

lemma rowLe_trans (a b c : Row) (h1 : rowLe a b) (h2 : rowLe b c) :
    rowLe a c :=
  (strLe_iff _ _).mpr (le_trans ((strLe_iff _ _).mp h1) ((strLe_iff _ _).mp h2))

lemma rowLe_total (a b : Row) : rowLe a b || rowLe b a := by
  by_cases h : sortKeyRow a ≤ sortKeyRow b
  · have h2 : rowLe a b = true := (strLe_iff _ _).mpr h
    simp [h2]
  · have h2 : rowLe b a = true := (strLe_iff _ _).mpr (le_of_not_le h)
    simp [h2]

lemma pairLe_trans (a b c : String × String) (h1 : pairLe a b) (h2 : pairLe b c) :
    pairLe a c :=
  (strLe_iff _ _).mpr (le_trans ((strLe_iff _ _).mp h1) ((strLe_iff _ _).mp h2))

lemma pairLe_total (a b : String × String) : pairLe a b || pairLe b a := by
  by_cases h : sortKeyPair a ≤ sortKeyPair b
  · have h2 : pairLe a b = true := (strLe_iff _ _).mpr h
    simp [h2]
  · have h2 : pairLe b a = true := (strLe_iff _ _).mpr (le_of_not_le h)
    simp [h2]

lemma empty_le_str (s : String) : "" ≤ s := by
  rw [String.le_iff_toList_le]
  exact List.nil_le

lemma eq_empty_of_le_empty {s : String} (h : s ≤ "") : s = "" :=
  le_antisymm h (empty_le_str s)

lemma rowLe_empty_back {a b : Row} (h : rowLe a b = true)
    (hb : b.start_time = "") : a.start_time = "" := by
  have h2 : sortKeyRow a ≤ sortKeyRow b := (strLe_iff _ _).mp h
  unfold sortKeyRow at h2
  rw [if_pos hb] at h2
  by_cases ha : a.start_time = ""
  · exact ha
  · rw [if_neg ha] at h2
    exact absurd (eq_empty_of_le_empty h2) ha

lemma pairLe_empty_back {a b : String × String} (h : pairLe a b = true)
    (hb : b.2 = "") : a.2 = "" := by
  have h2 : sortKeyPair a ≤ sortKeyPair b := (strLe_iff _ _).mp h
  unfold sortKeyPair at h2
  rw [if_pos hb] at h2
  by_cases ha : a.2 = ""
  · exact ha
  · rw [if_neg ha] at h2
    exact absurd (eq_empty_of_le_empty h2) ha

lemma pairwise_rowLe_strengthen {l : List Row}
    (h : l.Pairwise (fun a b => rowLe a b = true)) :
    l.Pairwise (fun a b => sortKeyRow a ≤ sortKeyRow b ∧
      (b.start_time = "" → a.start_time = "")) := by
  refine h.imp (fun hab => ⟨?_, fun hb => rowLe_empty_back hab hb⟩)
  exact (strLe_iff _ _).mp hab

/-- C3: every expansion query (range, month, today in both variants)
returns a list sorted ascending by the raw ISO start_time string key,
and any entry whose key is the empty string can only appear before the
entries with a non-empty ISO timestamp. -/
theorem claim_C3 (items : List Item) (s e : Date) (y m : Nat) (l : List Row)
    (today : Date) (lim : Nat) :
    (get_schedule_by_date_range items s e).Pairwise
      (fun a b => sortKeyRow a ≤ sortKeyRow b ∧
        (b.start_time = "" → a.start_time = "")) ∧
    (get_schedule_by_month items y m = Except.ok l →
      l.Pairwise (fun a b => sortKeyRow a ≤ sortKeyRow b ∧
        (b.start_time = "" → a.start_time = ""))) ∧
    (get_today_schedule_full items today lim).Pairwise
      (fun a b => sortKeyRow a ≤ sortKeyRow b ∧
        (b.start_time = "" → a.start_time = "")) ∧
    (get_today_schedule items today lim).Pairwise
      (fun a b => sortKeyPair a ≤ sortKeyPair b ∧
        (b.2 = "" → a.2 = "")) := by
  refine ⟨?_, ?_, ?_, ?_⟩
  · exact pairwise_rowLe_strengthen
      (sorted_stableSort rowLe rowLe_trans rowLe_total _)
  · intro hok
    unfold get_schedule_by_month at hok
    split at hok <;> split at hok <;>
      first
        | (injection hok with hok
           subst hok
           exact pairwise_rowLe_strengthen
             (sorted_stableSort rowLe rowLe_trans rowLe_total _))
        | exact absurd hok (by simp)
  · exact List.Pairwise.sublist (List.take_sublist _ _)
      (pairwise_rowLe_strengthen
        (sorted_stableSort rowLe rowLe_trans rowLe_total _))
  · refine List.Pairwise.sublist (List.take_sublist _ _) ?_
    refine (sorted_stableSort pairLe pairLe_trans pairLe_total _).imp
      (fun hab => ⟨?_, fun hb => pairLe_empty_back hab hb⟩)
    exact (strLe_iff _ _).mp hab

/-- The fully sorted merged list of a day's one-shot and recurring
occurrences, before any truncation (the spec's description of the
bounded today query). -/
def todaySortedFull (items : List Item) (today : Date) : List Row :=
  stableSort rowLe
    ((selectOneShot items (fun d => decide (d = today))) ++
      (selectRecurring items).filterMap (recurInstance today))

/-- The fully sorted merged (title, start_time) list of the day,
before any truncation. -/
def todaySortedPairs (items : List Item) (today : Date) : List (String × String) :=
  stableSort pairLe
    (stableSort pairLe ((items.filter (oneShotKeep (fun d => decide (d = today)))).map
        (fun i => (i.title, i.start_time.getD ""))) ++
      (items.filter recurKeep).filterMap (recurInstancePair today))

/-- C9: the bounded today queries return exactly the first `limit`
entries of the fully sorted merged day list — truncation happens after
the chronological sort, so every returned entry sorts no later than
every entry cut off. -/
theorem claim_C9 (items : List Item) (today : Date) (limit : Nat) :
    get_today_schedule_full items today limit =
      (todaySortedFull items today).take limit ∧
    get_today_schedule items today limit =
      (todaySortedPairs items today).take limit ∧
    (∀ x ∈ get_today_schedule_full items today limit,
      ∀ y ∈ (todaySortedFull items today).drop limit,
        sortKeyRow x ≤ sortKeyRow y) := by
  refine ⟨rfl, rfl, ?_⟩
  intro x hx y hy
  have hs : (todaySortedFull items today).Pairwise (fun a b => rowLe a b = true) :=
    sorted_stableSort rowLe rowLe_trans rowLe_total _
  rw [← List.take_append_drop limit (todaySortedFull items today)] at hs
  have hx2 : x ∈ (todaySortedFull items today).take limit := hx
  have h3 := (List.pairwise_append.mp hs).2.2 x hx2 y hy
  exact (strLe_iff _ _).mp h3

lemma oneShotKeep_false_of_window {window : Date → Bool}
    (hw : ∀ d, window d = false) (i : Item) : oneShotKeep window i = false := by
  unfold oneShotKeep
  split
  · rfl
  · split
    · rfl
    · rw [hw]
      rfl

/-- A nonempty store used to exhibit the silent empty result of a
reversed range query. -/
def c7Items : List Item :=
  [⟨1, "Standup", some "2024-01-05T09:00:00", false, "local", none,
    some false, none, "medium"⟩]

/-- C7 counterexample: with a nonempty store holding a well-formed
schedule item, a range query whose end precedes its start does not
report any input error — the function returns normally with the empty
list, exactly the silent empty output the claim rules out (the
function has no error outcome at all on this path). -/
theorem claim_C7_counterexample :
    c7Items ≠ [] ∧
    get_schedule_by_date_range c7Items ⟨2024, 1, 10⟩ ⟨2024, 1, 5⟩ = [] := by
  constructor
  · decide
  · rfl

/-- C7 as amended: a month query with a non-existent month (outside
1..12) propagates a `ValueError` and produces no output, but a range
query with `range_end < range_start` does not report an input error:
it silently returns the empty occurrence list. -/
theorem claim_C7 (items : List Item) (y m : Nat) (s e : Date) :
    (m < 1 ∨ 12 < m →
      get_schedule_by_month items y m = Except.error "ValueError") ∧
    (Date.lt e s → get_schedule_by_date_range items s e = []) := by
  constructor
  · intro hm
    unfold get_schedule_by_month
    have hm12 : ¬ (m = 12) := by omega
    rw [if_neg hm12]
    have hnone : mkDate y m 1 = none := by
      unfold mkDate
      rw [if_neg]
      intro hv
      unfold Date.valid at hv
      dsimp only at hv
      omega
    rw [hnone]
  · intro hlt
    unfold get_schedule_by_date_range
    have hwin : ∀ d, (decide (Date.le s d) && decide (Date.le d e)) = false := by
      intro d
      by_cases h1 : Date.le s d
      · by_cases h2 : Date.le d e
        · exact absurd (Date.le_trans h1 h2) (Date.not_le_of_lt hlt)
        · simp [h2]
      · simp [h1]
    have hfilter : items.filter (oneShotKeep
        (fun d => decide (Date.le s d) && decide (Date.le d e))) = [] := by
      rw [List.filter_eq_nil_iff]
      intro a _
      rw [oneShotKeep_false_of_window hwin a]
      simp
    have hdates : dateRangeIncl s e = [] := by
      rw [dateRangeIncl_eq, if_neg (Date.not_le_of_lt hlt)]
    unfold selectOneShot expandRecurring
    rw [hfilter, hdates]
    rfl

/-- C10: `add_schedule_item` raises `ValueError` on a task with no
(or empty) `start_time`, inserting nothing, and otherwise inserts
exactly one new row carrying the task's fields. -/
theorem claim_C10 (db : DB) (t : Task) :
    ((t.start_time = none ∨ t.start_time = some "") →
      add_schedule_item db t =
        Except.error "Schedule items must have a start_time") ∧
    (∀ st, t.start_time = some st → st ≠ "" →
      add_schedule_item db t = Except.ok
        ⟨db.nextId + 1, db.rows ++
          [⟨db.nextId, t.title, t.start_time, t.completed, t.source,
            t.event_id, some t.is_recurring, t.repeat_days, t.priority⟩]⟩) := by
  constructor
  · intro h
    unfold add_schedule_item
    rw [if_pos h]
  · intro st hst hne
    unfold add_schedule_item add_task
    rw [if_neg]
    rintro (h | h)
    · rw [hst] at h
      exact Option.noConfusion h
    · rw [hst] at h
      injection h with h
      exact hne h

/-! Conflict-detection lemmas. -/

/-- The (hour, minute) key an existing row contributes for a given
candidate date, if any. -/
def keyOf (event_date : Date) (r : Row) : Option (Nat × Nat) :=
  match parseISO r.start_time with
  | some edt =>
    if edt.date = event_date then some (edt.time.hour, edt.time.minute)
    else none
  | none => none

lemma parseISO_empty : parseISO "" = none := rfl

lemma keyOf_empty {ed : Date} {r : Row} (h : r.start_time = "") :
    keyOf ed r = none := by
  unfold keyOf
  rw [h, parseISO_empty]

lemma eventTimesStep_any (ed : Date) (acc : List ((Nat × Nat) × String))
    (r : Row) (k : Nat × Nat) :
    ((eventTimesStep ed acc r).any (fun p => p.1 = k) = true) ↔
      (acc.any (fun p => p.1 = k) = true ∨ keyOf ed r = some k) := by
  unfold eventTimesStep
  by_cases hempty : r.start_time = ""
  · rw [if_pos hempty, keyOf_empty hempty]
    simp
  · rw [if_neg hempty]
    unfold keyOf
    cases hp : parseISO r.start_time with
    | none => simp
    | some edt =>
      dsimp only
      by_cases hdate : edt.date = ed
      · rw [if_pos hdate]
        by_cases hpresent :
            (acc.any (fun p => p.1 = (edt.time.hour, edt.time.minute))) = true
        · rw [if_neg (fun hcond => by
            have := hcond.2
            exact this hpresent)]
          constructor
          · intro h
            exact Or.inl h
          · rintro (h | h)
            · exact h
            · injection h with h2
              rw [← h2]
              exact hpresent
        · rw [if_pos ⟨hdate, fun hc => hpresent hc⟩]
          rw [List.any_append]
          simp only [List.any_cons, List.any_nil, Bool.or_false, Bool.or_eq_true]
          constructor
          · rintro (h | h)
            · exact Or.inl h
            · refine Or.inr ?_
              simp only [decide_eq_true_eq] at h
              rw [h]
          · rintro (h | h)
            · exact Or.inl h
            · refine Or.inr ?_
              injection h with h2
              simp [h2]
      · rw [if_neg (fun hcond => hdate hcond.1)]
        simp [hdate]

lemma eventTimes_fold_any (ed : Date) :
    ∀ (l : List Row) (acc : List ((Nat × Nat) × String)) (k : Nat × Nat),
      ((l.foldl (eventTimesStep ed) acc).any (fun p => p.1 = k) = true) ↔
        (acc.any (fun p => p.1 = k) = true ∨
          ∃ r ∈ l, keyOf ed r = some k) := by
  intro l
  induction l with
  | nil =>
    intro acc k
    simp
  | cons r rs ih =>
    intro acc k
    rw [List.foldl_cons, ih, eventTimesStep_any]
    constructor
    · rintro ((h | h) | ⟨r2, h1, h2⟩)
      · exact Or.inl h
      · exact Or.inr ⟨r, by simp, h⟩
      · exact Or.inr ⟨r2, by simp [h1], h2⟩
    · rintro (h | ⟨r2, h1, h2⟩)
      · exact Or.inl (Or.inl h)
      · rcases List.mem_cons.mp h1 with rfl | h3
        · exact Or.inl (Or.inr h2)
        · exact Or.inr ⟨r2, h3, h2⟩

lemma eventTimesStep_mem {ed : Date} {acc : List ((Nat × Nat) × String)}
    {r : Row} {p : (Nat × Nat) × String}
    (h : p ∈ eventTimesStep ed acc r) :
    p ∈ acc ∨ (keyOf ed r = some p.1 ∧ r.title = p.2) := by
  unfold eventTimesStep at h
  by_cases hempty : r.start_time = ""
  · rw [if_pos hempty] at h
    exact Or.inl h
  · rw [if_neg hempty] at h
    revert h
    unfold keyOf
    cases hp : parseISO r.start_time with
    | none => exact fun h => Or.inl h
    | some edt =>
      dsimp only
      intro h
      split at h
      · rcases List.mem_append.mp h with h2 | h2
        · exact Or.inl h2
        · simp only [List.mem_singleton] at h2
          subst h2
          rename_i hcond
          rw [if_pos hcond.1]
          exact Or.inr ⟨rfl, rfl⟩
      · exact Or.inl h

lemma eventTimes_fold_mem (ed : Date) :
    ∀ (l : List Row) (acc : List ((Nat × Nat) × String))
      (p : (Nat × Nat) × String), p ∈ l.foldl (eventTimesStep ed) acc →
      p ∈ acc ∨ ∃ r ∈ l, keyOf ed r = some p.1 ∧ r.title = p.2 := by
  intro l
  induction l with
  | nil =>
    intro acc p h
    exact Or.inl h
  | cons r rs ih =>
    intro acc p h
    rw [List.foldl_cons] at h
    rcases ih _ p h with h2 | ⟨r2, h3, h4⟩
    · rcases eventTimesStep_mem h2 with h5 | h5
      · exact Or.inl h5
      · exact Or.inr ⟨r, by simp, h5.1, h5.2⟩
    · exact Or.inr ⟨r2, by simp [h3], h4⟩

lemma keyOf_eq_some_iff {ed : Date} {r : Row} {k : Nat × Nat} :
    keyOf ed r = some k ↔
      ∃ edt, parseISO r.start_time = some edt ∧ edt.date = ed ∧
        edt.time.hour = k.1 ∧ edt.time.minute = k.2 := by
  unfold keyOf
  cases hp : parseISO r.start_time with
  | none => simp
  | some edt =>
    dsimp only
    by_cases hdate : edt.date = ed
    · rw [if_pos hdate]
      constructor
      · intro h
        injection h with h2
        exact ⟨edt, rfl, hdate, by rw [← h2], by rw [← h2]⟩
      · rintro ⟨edt2, h1, h2, h3, h4⟩
        injection h1 with h1
        subst h1
        rw [show k = (k.1, k.2) from rfl, ← h3, ← h4]
    · rw [if_neg hdate]
      constructor
      · intro h
        exact absurd h (by simp)
      · rintro ⟨edt2, h1, h2, h3, h4⟩
        injection h1 with h1
        subst h1
        exact absurd h2 hdate

lemma sameSlot_iff {d : Date} {dt : DateTime} {st : String} :
    ((!(st = "" : Bool)) && sameSlot d dt st) = true ↔
      ∃ edt, parseISO st = some edt ∧ edt.date = d ∧
        edt.time.hour = dt.time.hour ∧ edt.time.minute = dt.time.minute := by
  unfold sameSlot
  cases hp : parseISO st with
  | none =>
    simp
  | some edt =>
    dsimp only
    have hne : ¬ (st = "") := fun h => by
      rw [h, parseISO_empty] at hp
      exact Option.noConfusion hp
    have hne2 : (!(st = "" : Bool)) = true := by
      simp [hne]
    rw [hne2, Bool.true_and]
    simp only [Bool.and_eq_true, decide_eq_true_eq]
    constructor
    · rintro ⟨⟨h1, h2⟩, h3⟩
      exact ⟨edt, rfl, h1, h2, h3⟩
    · rintro ⟨edt2, h1, h2, h3, h4⟩
      injection h1 with h1
      subst h1
      exact ⟨⟨h2, h3⟩, h4⟩

lemma lookupTime_isSome_iff {et : List ((Nat × Nat) × String)} {k : Nat × Nat} :
    (lookupTime et k).isSome = true ↔ et.any (fun p => p.1 = k) = true := by
  unfold lookupTime
  rw [Option.isSome_map', List.find?_isSome, List.any_eq_true]

lemma eventTimes_any_iff (existing : List Row) (ed : Date) (k : Nat × Nat) :
    ((eventTimes existing ed).any (fun p => p.1 = k) = true) ↔
      ∃ r ∈ existing, keyOf ed r = some k := by
  unfold eventTimes
  rw [eventTimes_fold_any]
  simp

/-- C4: both conflict checks signal a conflict exactly when some
existing occurrence parses to the candidate date with the same hour and
minute; the voice path's conflict result carries the stored title of a
conflicting occurrence. Any candidate differing in minute or hour is
never flagged. -/
theorem claim_C4 (existing : List Row) (dt : DateTime) :
    ((add_event_voice_conflict existing dt).isSome = true ↔
      ∃ r ∈ existing, ∃ edt, parseISO r.start_time = some edt ∧
        edt.date = dt.date ∧ edt.time.hour = dt.time.hour ∧
        edt.time.minute = dt.time.minute) ∧
    (∀ t sug, add_event_voice_conflict existing dt = some (t, sug) →
      ∃ r ∈ existing, (∃ edt, parseISO r.start_time = some edt ∧
        edt.date = dt.date ∧ edt.time.hour = dt.time.hour ∧
        edt.time.minute = dt.time.minute) ∧ r.title = t) ∧
    (create_event_conflict existing dt = true ↔
      ∃ r ∈ existing, ∃ edt, parseISO r.start_time = some edt ∧
        edt.date = dt.date ∧ edt.time.hour = dt.time.hour ∧
        edt.time.minute = dt.time.minute) := by
  have hsome : (add_event_voice_conflict existing dt).isSome =
      (lookupTime (eventTimes existing dt.date)
        (dt.time.hour, dt.time.minute)).isSome := by
    unfold add_event_voice_conflict
    dsimp only
    cases hl : lookupTime (eventTimes existing dt.date)
        (dt.time.hour, dt.time.minute) with
    | some t => rfl
    | none => rfl
  refine ⟨?_, ?_, ?_⟩
  · rw [hsome, lookupTime_isSome_iff, eventTimes_any_iff]
    constructor
    · rintro ⟨r, hr, hkey⟩
      exact ⟨r, hr, keyOf_eq_some_iff.mp hkey⟩
    · rintro ⟨r, hr, hedt⟩
      exact ⟨r, hr, keyOf_eq_some_iff.mpr hedt⟩
  · intro t sug heq
    unfold add_event_voice_conflict at heq
    dsimp only at heq
    cases hl : lookupTime (eventTimes existing dt.date)
        (dt.time.hour, dt.time.minute) with
    | none =>
      rw [hl] at heq
      exact absurd heq (by simp)
    | some t2 =>
      rw [hl] at heq
      injection heq with heq
      injection heq with heq1 heq2
      subst heq1
      unfold lookupTime at hl
      rcases Option.map_eq_some'.mp hl with ⟨q, hfind, hsnd⟩
      have hmem := List.mem_of_find?_eq_some hfind
      have hpk0 := List.find?_some hfind
      have hpk : q.1 = (dt.time.hour, dt.time.minute) := of_decide_eq_true hpk0
      unfold eventTimes at hmem
      rcases eventTimes_fold_mem dt.date existing [] q hmem with h | ⟨r, hrm, hk, ht⟩
      · simp at h
      · rw [hpk] at hk
        exact ⟨r, hrm, keyOf_eq_some_iff.mp hk, by rw [ht, hsnd]⟩
  · unfold create_event_conflict
    rw [List.any_eq_true]
    constructor
    · rintro ⟨r, hr, hpred⟩
      exact ⟨r, hr, sameSlot_iff.mp hpred⟩
    · rintro ⟨r, hr, hedt⟩
      exact ⟨r, hr, sameSlot_iff.mpr hedt⟩

/-- C5: with an exclude id (the edit path), every row of the day's
expansion whose id equals the excluded id — synthesized recurring
occurrences included, since every expansion row reuses the id of its
stored item — is ignored, so editing an item to a slot occupied only by
rows bearing its own id produces no conflict. -/
theorem claim_C5 (items : List Item) (d : Date) (X : Nat) (dt : DateTime) :
    (update_event_conflict (get_schedule_by_date_range items d d) X dt = true ↔
      ∃ r ∈ get_schedule_by_date_range items d d, r.id ≠ X ∧
        ∃ edt, parseISO r.start_time = some edt ∧ edt.date = dt.date ∧
          edt.time.hour = dt.time.hour ∧ edt.time.minute = dt.time.minute) ∧
    ((∀ r ∈ get_schedule_by_date_range items d d,
        (∃ edt, parseISO r.start_time = some edt ∧ edt.date = dt.date ∧
          edt.time.hour = dt.time.hour ∧ edt.time.minute = dt.time.minute) →
        r.id = X) →
      update_event_conflict (get_schedule_by_date_range items d d) X dt = false) ∧
    (∀ r ∈ get_schedule_by_date_range items d d, ∃ i ∈ items, r.id = i.id) := by
  have hiff : update_event_conflict (get_schedule_by_date_range items d d) X dt
        = true ↔
      ∃ r ∈ get_schedule_by_date_range items d d, r.id ≠ X ∧
        ∃ edt, parseISO r.start_time = some edt ∧ edt.date = dt.date ∧
          edt.time.hour = dt.time.hour ∧ edt.time.minute = dt.time.minute := by
    unfold update_event_conflict
    rw [List.any_eq_true]
    constructor
    · rintro ⟨r, hr, hpred⟩
      rw [Bool.and_eq_true, Bool.and_eq_true] at hpred
      obtain ⟨⟨hid, hb⟩, hc⟩ := hpred
      refine ⟨r, hr, by simpa using hid, ?_⟩
      exact sameSlot_iff.mp (by rw [Bool.and_eq_true]; exact ⟨hb, hc⟩)
    · rintro ⟨r, hr, hid, hedt⟩
      refine ⟨r, hr, ?_⟩
      have h2 := sameSlot_iff.mpr hedt
      rw [Bool.and_eq_true] at h2
      have hidb : (!(r.id = X : Bool)) = true := by simpa using hid
      rw [Bool.and_eq_true, Bool.and_eq_true]
      exact ⟨⟨hidb, h2.1⟩, h2.2⟩
  refine ⟨hiff, ?_, ?_⟩
  · intro hall
    cases hb : update_event_conflict (get_schedule_by_date_range items d d) X dt
    · rfl
    · obtain ⟨r, hr, hid, hedt⟩ := hiff.mp hb
      exact absurd (hall r hr hedt) hid
  · intro r hr
    rcases mem_range_iff.mp hr with ⟨i, ⟨hi, _⟩, hrow⟩ | ⟨cur, _, i, ⟨hi, _⟩, hinst⟩
    · exact ⟨i, hi, by rw [← hrow]; rfl⟩
    · exact ⟨i, hi, recurInstance_id hinst⟩

lemma suggestLoop_eq (et : List ((Nat × Nat) × String)) (dt : DateTime) :
    ∀ (os : List Int) (acc : List String), acc.length < 3 →
      suggestLoop et dt acc os =
        acc ++ ((os.filter (fun o =>
          !(et.any (fun p => p.1 = altKey dt o)))).take (3 - acc.length)).map
            (fun o => fmt12 (altKey dt o)) := by
  intro os
  induction os with
  | nil =>
    intro acc _
    simp [suggestLoop]
  | cons o os ih =>
    intro acc hlen
    unfold suggestLoop
    by_cases hocc : (et.any (fun p => p.1 = altKey dt o)) = true
    · rw [if_neg (by simpa using hocc)]
      rw [ih acc hlen]
      have hfil : (o :: os).filter (fun o =>
          !(et.any (fun p => p.1 = altKey dt o))) =
        os.filter (fun o => !(et.any (fun p => p.1 = altKey dt o))) := by
        rw [List.filter_cons]
        simp [hocc]
      rw [hfil]
    · rw [if_pos (by simpa using hocc)]
      have hfil : (o :: os).filter (fun o =>
          !(et.any (fun p => p.1 = altKey dt o))) =
        o :: os.filter (fun o => !(et.any (fun p => p.1 = altKey dt o))) := by
        rw [List.filter_cons]
        simp [hocc]
      rw [hfil]
      by_cases h3 : (acc ++ [fmt12 (altKey dt o)]).length ≥ 3
      · rw [if_pos h3]
        have hlen2 : acc.length = 2 := by
          rw [List.length_append] at h3
          simp at h3
          omega
        rw [show 3 - acc.length = 1 from by omega]
        simp
      · rw [if_neg h3]
        have hlen3 : (acc ++ [fmt12 (altKey dt o)]).length < 3 := by omega
        rw [ih _ hlen3]
        rw [List.length_append]
        simp only [List.length_singleton]
        rw [show 3 - acc.length = (3 - (acc.length + 1)) + 1 from by omega]
        rw [List.take_succ_cons, List.map_cons]
        simp

/-- C6: on a detected conflict the suggestions are exactly the probed
offsets -60, -30, +30, +60 (in that order) whose (hour, minute) is
unoccupied, at most 3, rendered in 12-hour am/pm format with minutes
omitted when zero; when every probe is occupied the result is still a
conflict carrying an empty suggestion list rather than an error. -/
theorem claim_C6 (existing : List Row) (dt : DateTime) (t : String)
    (sug : List String) :
    (add_event_voice_conflict existing dt = some (t, sug) →
      sug = ((([-60, -30, 30, 60] : List Int).filter (fun o =>
          !((eventTimes existing dt.date).any
            (fun p => p.1 = altKey dt o)))).take 3).map
        (fun o => fmt12 (altKey dt o))) ∧
    (lookupTime (eventTimes existing dt.date)
        (dt.time.hour, dt.time.minute) = some t →
      (∀ o ∈ ([-60, -30, 30, 60] : List Int),
        (eventTimes existing dt.date).any (fun p => p.1 = altKey dt o) = true) →
      add_event_voice_conflict existing dt = some (t, [])) ∧
    fmt12 (14, 0) = "2pm" ∧ fmt12 (14, 30) = "2:30pm" := by
  have hsug : suggestTimes (eventTimes existing dt.date) dt =
      ((([-60, -30, 30, 60] : List Int).filter (fun o =>
        !((eventTimes existing dt.date).any
          (fun p => p.1 = altKey dt o)))).take 3).map
        (fun o => fmt12 (altKey dt o)) := by
    unfold suggestTimes
    rw [suggestLoop_eq (eventTimes existing dt.date) dt _ [] (by norm_num)]
    simp
  refine ⟨?_, ?_, by decide, by decide⟩
  · intro heq
    unfold add_event_voice_conflict at heq
    dsimp only at heq
    cases hl : lookupTime (eventTimes existing dt.date)
        (dt.time.hour, dt.time.minute) with
    | none =>
      rw [hl] at heq
      exact absurd heq (by simp)
    | some t2 =>
      rw [hl] at heq
      injection heq with heq
      injection heq with heq1 heq2
      rw [← heq2, hsug]
  · intro hl hall
    unfold add_event_voice_conflict
    dsimp only
    rw [hl]
    have hempty : suggestTimes (eventTimes existing dt.date) dt = [] := by
      rw [hsug]
      have : ([-60, -30, 30, 60] : List Int).filter (fun o =>
          !((eventTimes existing dt.date).any
            (fun p => p.1 = altKey dt o))) = [] := by
        rw [List.filter_eq_nil_iff]
        intro o ho
        simp [hall o ho]
      rw [this]
      rfl
    rw [hempty]

/-! Concrete stores used by the witnesses. 2024-01-01 is a Monday. -/

/-- A store with a weekly recurring stand-up (Mon, Wed, Fri) and a
one-shot appointment. -/
def wItems : List Item :=
  [⟨1, "Standup", some "2024-01-01T09:00:00", false, "local", none,
    some true, some "0,2,4", "medium"⟩,
   ⟨2, "Dentist", some "2024-01-03T14:00:00", false, "local", none,
    some false, none, "medium"⟩]

/-- A store with only the one-shot appointment. -/
def mItems : List Item :=
  [⟨2, "Dentist", some "2024-01-03T14:00:00", false, "local", none,
    some false, none, "medium"⟩]

/-- A store whose recurring item has an unparseable timestamp. -/
def badItems : List Item :=
  [⟨1, "Bad", some "garbage", false, "local", none, some true,
    some "0,1,2,3,4,5,6", "medium"⟩,
   ⟨2, "Dentist", some "2024-01-03T14:00:00", false, "local", none,
    some false, none, "medium"⟩]

/-- One expanded occurrence row at 14:00 on 2024-01-05. -/
def exRows : List Row :=
  [⟨2, "Meet", "2024-01-05T14:00:00", "local", false, none, some false, none⟩]

/-- Expanded occurrence rows occupying 13:00 through 15:00 every half
hour on 2024-01-05. -/
def fullRows : List Row :=
  [⟨1, "A", "2024-01-05T13:00:00", "local", false, none, some false, none⟩,
   ⟨2, "B", "2024-01-05T13:30:00", "local", false, none, some false, none⟩,
   ⟨3, "C", "2024-01-05T14:00:00", "local", false, none, some false, none⟩,
   ⟨4, "D", "2024-01-05T14:30:00", "local", false, none, some false, none⟩,
   ⟨5, "E", "2024-01-05T15:00:00", "local", false, none, some false, none⟩]

/-- Witness for C1: in the January 1–7 2024 expansion of `wItems`, the
stand-up contributes exactly one occurrence on Wednesday January 3 at
09:00, and none on Tuesday January 2. -/
theorem claim_C1_witness :
    (get_schedule_by_date_range wItems ⟨2024, 1, 1⟩ ⟨2024, 1, 7⟩).countP
        (fun r => decide (r.id = 1) &&
          decide (r.start_time =
            isoformat ⟨⟨2024, 1, 3⟩, ⟨9, 0, 0⟩⟩)) = 1 ∧
    (get_schedule_by_date_range wItems ⟨2024, 1, 1⟩ ⟨2024, 1, 7⟩).countP
        (fun r => decide (r.id = 1) &&
          decide (r.start_time =
            isoformat ⟨⟨2024, 1, 2⟩, ⟨9, 0, 0⟩⟩)) = 0 := by
  have h := claim_C1 wItems ⟨2024, 1, 1⟩ ⟨2024, 1, 7⟩
    ⟨1, "Standup", some "2024-01-01T09:00:00", false, "local", none,
      some true, some "0,2,4", "medium"⟩
    "0,2,4" "2024-01-01T09:00:00" ⟨⟨2024, 1, 1⟩, ⟨9, 0, 0⟩⟩
    (by decide) (by decide) rfl rfl rfl (by decide) rfl (by decide)
  exact ⟨(h.1 ⟨2024, 1, 3⟩ (by decide) (by decide)).1,
    h.2 ⟨2024, 1, 2⟩ (by decide)⟩

/-- Witness for C2: the one-shot dentist appointment appears exactly
once, unchanged, in the January 1–7 2024 expansion, and not at all in a
February window. -/
theorem claim_C2_witness :
    (get_schedule_by_date_range wItems ⟨2024, 1, 1⟩ ⟨2024, 1, 7⟩).countP
        (fun r => decide (r =
          ⟨2, "Dentist", "2024-01-03T14:00:00", "local", false, none,
            some false, none⟩)) = 1 ∧
    (get_schedule_by_date_range wItems ⟨2024, 2, 1⟩ ⟨2024, 2, 7⟩).countP
        (fun r => decide (r.id = 2)) = 0 := by
  have h1 := claim_C2 wItems ⟨2024, 1, 1⟩ ⟨2024, 1, 7⟩
    ⟨2, "Dentist", some "2024-01-03T14:00:00", false, "local", none,
      some false, none, "medium"⟩
    "2024-01-03T14:00:00" ⟨⟨2024, 1, 3⟩, ⟨14, 0, 0⟩⟩
    (by decide) (by decide) rfl (by decide) rfl (by decide)
  have h2 := claim_C2 wItems ⟨2024, 2, 1⟩ ⟨2024, 2, 7⟩
    ⟨2, "Dentist", some "2024-01-03T14:00:00", false, "local", none,
      some false, none, "medium"⟩
    "2024-01-03T14:00:00" ⟨⟨2024, 1, 3⟩, ⟨14, 0, 0⟩⟩
    (by decide) (by decide) rfl (by decide) rfl (by decide)
  exact ⟨h1.1 (by decide) (by decide), h2.2 (by decide)⟩

/-- Witness for C3: the four query outputs for the one-item store over
January 2024 are sorted with the empty key first. -/
theorem claim_C3_witness :
    (get_schedule_by_date_range mItems ⟨2024, 1, 1⟩ ⟨2024, 1, 7⟩).Pairwise
      (fun a b => sortKeyRow a ≤ sortKeyRow b ∧
        (b.start_time = "" → a.start_time = "")) ∧
    ([⟨2, "Dentist", "2024-01-03T14:00:00", "local", false, none,
        some false, none⟩] : List Row).Pairwise
      (fun a b => sortKeyRow a ≤ sortKeyRow b ∧
        (b.start_time = "" → a.start_time = "")) := by
  have h := claim_C3 mItems ⟨2024, 1, 1⟩ ⟨2024, 1, 7⟩ 2024 1
    [⟨2, "Dentist", "2024-01-03T14:00:00", "local", false, none,
      some false, none⟩] ⟨2024, 1, 3⟩ 3
  exact ⟨h.1, h.2.1 (by rfl)⟩

/-- Witness for C4: an occurrence at 14:00 conflicts with a 14:00
candidate (both paths, with the stored title), while a 14:01 candidate
does not. -/
theorem claim_C4_witness :
    (add_event_voice_conflict exRows ⟨⟨2024, 1, 5⟩, ⟨14, 0, 0⟩⟩).isSome = true ∧
    create_event_conflict exRows ⟨⟨2024, 1, 5⟩, ⟨14, 0, 0⟩⟩ = true ∧
    (add_event_voice_conflict exRows ⟨⟨2024, 1, 5⟩, ⟨14, 1, 0⟩⟩).isSome = false := by
  have h := claim_C4 exRows ⟨⟨2024, 1, 5⟩, ⟨14, 0, 0⟩⟩
  refine ⟨?_, ?_, by decide⟩
  · exact h.1.mpr ⟨⟨2, "Meet", "2024-01-05T14:00:00", "local", false, none,
      some false, none⟩, by decide,
      ⟨⟨⟨2024, 1, 5⟩, ⟨14, 0, 0⟩⟩, by decide, rfl, rfl, rfl⟩⟩
  · exact h.2.2.mpr ⟨⟨2, "Meet", "2024-01-05T14:00:00", "local", false, none,
      some false, none⟩, by decide,
      ⟨⟨⟨2024, 1, 5⟩, ⟨14, 0, 0⟩⟩, by decide, rfl, rfl, rfl⟩⟩

/-- Witness for C5: editing the stand-up (id 1) to Wednesday 09:00 —
a slot occupied only by its own synthesized occurrence — produces no
conflict. -/
theorem claim_C5_witness :
    update_event_conflict
      (get_schedule_by_date_range
        [⟨1, "Standup", some "2024-01-01T09:00:00", false, "local", none,
          some true, some "0,2,4", "medium"⟩]
        ⟨2024, 1, 3⟩ ⟨2024, 1, 3⟩) 1
      ⟨⟨2024, 1, 3⟩, ⟨9, 0, 0⟩⟩ = false := by
  have h := claim_C5
    [⟨1, "Standup", some "2024-01-01T09:00:00", false, "local", none,
      some true, some "0,2,4", "medium"⟩]
    ⟨2024, 1, 3⟩ 1 ⟨⟨2024, 1, 3⟩, ⟨9, 0, 0⟩⟩
  exact h.2.1 (by decide)

/-- Witness for C6: for a 14:00 conflict with only 14:00 occupied the
suggestions are the filter-take-map of the probe offsets, and with
every probe occupied the conflict result carries an empty suggestion
list. -/
theorem claim_C6_witness :
    (["1pm", "1:30pm", "2:30pm"] : List String) =
      ((([-60, -30, 30, 60] : List Int).filter (fun o =>
        !((eventTimes exRows ⟨2024, 1, 5⟩).any (fun p => p.1 =
          altKey ⟨⟨2024, 1, 5⟩, ⟨14, 0, 0⟩⟩ o)))).take 3).map
        (fun o => fmt12 (altKey ⟨⟨2024, 1, 5⟩, ⟨14, 0, 0⟩⟩ o)) ∧
    add_event_voice_conflict fullRows ⟨⟨2024, 1, 5⟩, ⟨14, 0, 0⟩⟩ =
      some ("C", []) := by
  have h1 := claim_C6 exRows ⟨⟨2024, 1, 5⟩, ⟨14, 0, 0⟩⟩ "Meet"
    ["1pm", "1:30pm", "2:30pm"]
  have h2 := claim_C6 fullRows ⟨⟨2024, 1, 5⟩, ⟨14, 0, 0⟩⟩ "C" []
  exact ⟨h1.1 (by decide), h2.2.1 (by decide) (by decide)⟩

/-- Witness for C7 (amended): month 13 errors; a reversed range
silently yields the empty list. -/
theorem claim_C7_witness :
    get_schedule_by_month wItems 2024 13 = Except.error "ValueError" ∧
    get_schedule_by_date_range wItems ⟨2024, 1, 10⟩ ⟨2024, 1, 5⟩ = [] := by
  have h := claim_C7 wItems 2024 13 ⟨2024, 1, 10⟩ ⟨2024, 1, 5⟩
  exact ⟨h.1 (by omega), h.2 (by decide)⟩

/-- Witness for C8: the malformed recurring item contributes no row to
the January 1–7 2024 expansion while the well-formed one-shot item is
still returned. -/
theorem claim_C8_witness :
    (get_schedule_by_date_range badItems ⟨2024, 1, 1⟩ ⟨2024, 1, 7⟩).countP
      (fun r => decide (r.id = 1)) = 0 ∧
    get_schedule_by_date_range (badItems.filter (fun i => !malformedRecurring i))
        ⟨2024, 1, 1⟩ ⟨2024, 1, 7⟩ =
      get_schedule_by_date_range badItems ⟨2024, 1, 1⟩ ⟨2024, 1, 7⟩ := by
  have h := claim_C8
  exact ⟨h.2.2.2 badItems ⟨2024, 1, 1⟩ ⟨2024, 1, 7⟩
      ⟨1, "Bad", some "garbage", false, "local", none, some true,
        some "0,1,2,3,4,5,6", "medium"⟩
      (by decide) (by decide) rfl rfl,
    h.1 badItems ⟨2024, 1, 1⟩ ⟨2024, 1, 7⟩⟩

/-- Witness for C9: with limit 1 on Wednesday January 3 the bounded
query returns the sorted prefix, and the returned 09:00 stand-up sorts
no later than the cut-off 14:00 appointment. -/
theorem claim_C9_witness :
    get_today_schedule_full wItems ⟨2024, 1, 3⟩ 1 =
      (todaySortedFull wItems ⟨2024, 1, 3⟩).take 1 ∧
    sortKeyRow ⟨1, "Standup", "2024-01-03T09:00:00", "local", false, none,
        some true, some "0,2,4"⟩ ≤
      sortKeyRow ⟨2, "Dentist", "2024-01-03T14:00:00", "local", false, none,
        some false, none⟩ := by
  have h := claim_C9 wItems ⟨2024, 1, 3⟩ 1
  exact ⟨h.1, h.2.2 _ (by decide) _ (by decide)⟩

/-- Witness for C10: a task without start time is rejected leaving the
 store unchanged in the error branch, and a timed task is inserted as
one new row. -/
theorem claim_C10_witness :
    add_schedule_item ⟨1, []⟩ ⟨"Plain", none, false, "local", none, false,
        none, "medium"⟩ =
      Except.error "Schedule items must have a start_time" ∧
    add_schedule_item ⟨1, []⟩ ⟨"Dentist", some "2024-01-03T14:00:00", false,
        "local", none, false, none, "medium"⟩ =
      Except.ok ⟨2, [⟨1, "Dentist", some "2024-01-03T14:00:00", false,
        "local", none, some false, none, "medium"⟩]⟩ := by
  have h1 := claim_C10 ⟨1, []⟩
    ⟨"Plain", none, false, "local", none, false, none, "medium"⟩
  have h2 := claim_C10 ⟨1, []⟩
    ⟨"Dentist", some "2024-01-03T14:00:00", false, "local", none, false,
      none, "medium"⟩
  exact ⟨h1.1 (Or.inl rfl), h2.2 "2024-01-03T14:00:00" rfl (by decide)⟩

end AIVA
